import Mathlib

/-!
Shallow embedding of the Stackzilla dependency-graph resolver, blueprint diff
engine, apply orchestrator and resource verification logic
(`stackzilla/graph/graph.py`, `stackzilla/diff/diff.py`,
`stackzilla/resource/base.py`, `stackzilla/attribute/attribute.py`,
`stackzilla/utils/numbers.py`).

Python dictionaries are modelled as insertion-ordered association lists
(`List (String × α)`) with update-in-place / append-at-end insertion, exactly
mirroring CPython dict semantics.  Attribute values are modelled by the
inductive `Value` type (`None`, `int`, `str`, `list`); structural equality on
this domain coincides with Python `==`.
-/

set_option maxHeartbeats 1000000

namespace Stackzilla

/-- Python attribute values: `None`, integers, strings and lists.
On this domain Lean structural equality agrees with Python `==`. -/
inductive Value where
  | none
  | int (n : Int)
  | str (s : String)
  | list (vs : List Value)

mutual

/-- Decidable equality on values (Python `==` on the modelled domain). -/
def Value.decEq : (a b : Value) → Decidable (a = b)
  | Value.none, Value.none => isTrue rfl
  | Value.none, Value.int _ => isFalse (fun h => Value.noConfusion h)
  | Value.none, Value.str _ => isFalse (fun h => Value.noConfusion h)
  | Value.none, Value.list _ => isFalse (fun h => Value.noConfusion h)
  | Value.int _, Value.none => isFalse (fun h => Value.noConfusion h)
  | Value.int a, Value.int b =>
      if h : a = b then isTrue (h ▸ rfl) else isFalse (fun hh => h (Value.int.inj hh))
  | Value.int _, Value.str _ => isFalse (fun h => Value.noConfusion h)
  | Value.int _, Value.list _ => isFalse (fun h => Value.noConfusion h)
  | Value.str _, Value.none => isFalse (fun h => Value.noConfusion h)
  | Value.str _, Value.int _ => isFalse (fun h => Value.noConfusion h)
  | Value.str a, Value.str b =>
      if h : a = b then isTrue (h ▸ rfl) else isFalse (fun hh => h (Value.str.inj hh))
  | Value.str _, Value.list _ => isFalse (fun h => Value.noConfusion h)
  | Value.list _, Value.none => isFalse (fun h => Value.noConfusion h)
  | Value.list _, Value.int _ => isFalse (fun h => Value.noConfusion h)
  | Value.list _, Value.str _ => isFalse (fun h => Value.noConfusion h)
  | Value.list a, Value.list b =>
      match Value.decEqList a b with
      | isTrue h => isTrue (h ▸ rfl)
      | isFalse h => isFalse (fun hh => h (Value.list.inj hh))

/-- Decidable equality on lists of values. -/
def Value.decEqList : (a b : List Value) → Decidable (a = b)
  | [], [] => isTrue rfl
  | [], _ :: _ => isFalse (fun h => List.noConfusion h)
  | _ :: _, [] => isFalse (fun h => List.noConfusion h)
  | x :: xs, y :: ys =>
      match Value.decEq x y, Value.decEqList xs ys with
      | isTrue h1, isTrue h2 => isTrue (by rw [h1, h2])
      | isFalse h1, _ => isFalse (fun h => h1 (List.cons.inj h).1)
      | _, isFalse h2 => isFalse (fun h => h2 (List.cons.inj h).2)

end

instance : DecidableEq Value := Value.decEq

/-- Python truthiness of a `Value` (`bool(v)`). -/
def Value.truthy : Value → Bool
  | Value.none => false
  | Value.int n => n != 0
  | Value.str s => s != ""
  | Value.list vs => !vs.isEmpty

/-- Python runtime types occurring on the `Value` domain. -/
inductive PyType where
  | int
  | str
  | list
  | noneType
deriving DecidableEq

/-- `type(v)` for the modelled value domain. -/
def Value.typeOf : Value → PyType
  | Value.none => PyType.noneType
  | Value.int _ => PyType.int
  | Value.str _ => PyType.str
  | Value.list _ => PyType.list

/-- `issubclass(a, b)` restricted to the modelled (unrelated) runtime types. -/
def issubclass (a b : PyType) : Bool := a == b

/-- Printable form of a type, as Python renders `type(value)`
(the quote character is written with an escape). -/
def PyType.render : PyType → String
  | PyType.int => "<class \x27int\x27>"
  | PyType.str => "<class \x27str\x27>"
  | PyType.list => "<class \x27list\x27>"
  | PyType.noneType => "<class \x27NoneType\x27>"

namespace PyDict

variable {α : Type}

/-- Dictionary lookup: value of the first (unique, in CPython) matching key. -/
def find? (m : List (String × α)) (k : String) : Option α :=
  match m with
  | [] => Option.none
  | (k', v) :: rest => if k' = k then some v else find? rest k

/-- `k in m` for a Python dictionary. -/
def contains (m : List (String × α)) (k : String) : Bool :=
  (find? m k).isSome

/-- `m[k] = v`: update the entry in place when the key exists, otherwise
append it at the end — CPython insertion-order semantics. -/
def insert (m : List (String × α)) (k : String) (v : α) : List (String × α) :=
  match m with
  | [] => [(k, v)]
  | (k', v') :: rest =>
      if k' = k then (k, v) :: rest else (k', v') :: insert rest k v

/-- `del m[k]`: remove the entry with the given key (the first, were there
duplicates). -/
def erase (m : List (String × α)) (k : String) : List (String × α) :=
  match m with
  | [] => []
  | (k', v') :: rest =>
      if k' = k then rest else (k', v') :: erase rest k

/-- `list(m)` / `m.keys()` in insertion order. -/
def keys (m : List (String × α)) : List String := m.map Prod.fst

end PyDict

/-- Python `str.replace(pat, rep)` (all non-overlapping occurrences, scanning
left to right), on character lists.  Each step consumes at least one
character, so fuel equal to the scanned list's length suffices. -/
def pyReplaceAux (pat rep : List Char) : Nat → List Char → List Char
  | 0, s => s
  | Nat.succ fuel, s =>
      match s with
      | [] => []
      | c :: cs =>
          if pat ≠ [] ∧ pat.isPrefixOf (c :: cs) then
            rep ++ pyReplaceAux pat rep fuel (cs.drop (pat.length - 1))
          else
            c :: pyReplaceAux pat rep fuel cs

/-- Python `s.replace(pat, rep)` on strings. -/
def pyReplace (s pat rep : String) : String :=
  ⟨pyReplaceAux pat.data rep.data s.data.length s.data⟩

/-- `StackzillaRange` (`stackzilla/utils/numbers.py`): inclusive numeric range. -/
structure StackzillaRange where
  min : Int
  max : Int
deriving DecidableEq

/-- `StackzillaRange.in_range`.  `self.min <= value <= self.max` raises a
`TypeError` (modelled as `Option.none`) when the value is not numeric. -/
def StackzillaRange.in_range (r : StackzillaRange) (v : Value) : Option Bool :=
  match v with
  | Value.int n => some (decide (r.min ≤ n ∧ n ≤ r.max))
  | _ => Option.none

/-- `StackzillaAttribute` (`stackzilla/attribute/attribute.py`): descriptor
metadata for one resource attribute. -/
structure StackzillaAttribute where
  required : Bool := false
  default : Value := Value.none
  choices : Option (List Value) := Option.none
  types : Option (List PyType) := Option.none
  modify_rebuild : Bool := false
  dynamic : Bool := false
  secret : Bool := false
  number_range : Option StackzillaRange := Option.none
deriving DecidableEq

/-- `ResourceVersion` (`stackzilla/resource/base.py`). -/
structure ResourceVersion where
  major : Int
  minor : Int
  build : Int
  name : String
deriving DecidableEq

/-- `ResourceVerifyError` (`stackzilla/resource/exceptions.py`): the resource
path plus an ordered map from attribute name to its list of error strings. -/
structure ResourceVerifyError where
  resource_name : String
  attribute_errors : List (String × List String)
deriving DecidableEq

/-- `ResourceVerifyError.add_attribute_error`: append to the key's list,
creating the list on first use. -/
def ResourceVerifyError.add_attribute_error (e : ResourceVerifyError)
    (name error : String) : ResourceVerifyError :=
  match PyDict.find? e.attribute_errors name with
  | Option.none =>
      { e with attribute_errors := PyDict.insert e.attribute_errors name [error] }
  | some errs =>
      { e with attribute_errors := PyDict.insert e.attribute_errors name (errs ++ [error]) }

mutual

/-- Python `repr(v)` on the modelled value domain. -/
def Value.pyRepr : Value → String
  | Value.none => "None"
  | Value.int n => toString n
  | Value.str s => "\x27" ++ s ++ "\x27"
  | Value.list vs => "[" ++ Value.pyReprList vs ++ "]"

/-- Comma-separated reprs of a list's elements. -/
def Value.pyReprList : List Value → String
  | [] => ""
  | [x] => Value.pyRepr x
  | x :: y :: xs => Value.pyRepr x ++ ", " ++ Value.pyReprList (y :: xs)

end

/-- Python `str(v)`: like `repr` except strings print without quotes. -/
def Value.pyStr : Value → String
  | Value.str s => s
  | v => Value.pyRepr v

/-- A resource instance as the attribute-level operations see it: the display
path, the declared attribute descriptors (`StackzillaResource.attributes`) and
the instance `__dict__` attribute values. -/
structure ResInstance where
  path : String
  attributes : List (String × StackzillaAttribute)
  values : List (String × Value)
deriving DecidableEq

/-- `StackzillaResource.get_attribute_value`: the instance value when set,
otherwise the descriptor's default (descriptor `__get__`). -/
def ResInstance.get_attribute_value (r : ResInstance) (name : String) : Value :=
  match PyDict.find? r.values name with
  | some v => v
  | Option.none =>
      match PyDict.find? r.attributes name with
      | some a => a.default
      | Option.none => Value.none

/-- Outcome of `StackzillaResource.verify`: normal return, an uncaught
`TypeError` from a range comparison on a non-numeric value, or the aggregated
`ResourceVerifyError`. -/
inductive VerifyOutcome where
  | ok
  | typeError
  | verifyError (e : ResourceVerifyError)
deriving DecidableEq

/-- The `types` check of `verify` (`if attr.types and attr_value:`): one
error is appended for every entry of `types` the runtime type is not a
subclass of. -/
def typesCheck (e : ResourceVerifyError) (attr_name : String)
    (attr : StackzillaAttribute) (attr_value : Value) : ResourceVerifyError :=
  match attr.types with
  | some ts =>
      if ts.isEmpty || !attr_value.truthy then e
      else
        ts.foldl (fun acc type_check =>
          if issubclass attr_value.typeOf type_check then acc
          else acc.add_attribute_error attr_name
            ("value of type " ++ attr_value.typeOf.render ++ " not allowed")) e
  | Option.none => e

/-- The `choices` check of `verify` (`if attr.choices:`): element-wise
when the value is itself a list, otherwise on the scalar. -/
def choicesCheck (e : ResourceVerifyError) (attr_name : String)
    (attr : StackzillaAttribute) (attr_value : Value) : ResourceVerifyError :=
  match attr.choices with
  | some cs =>
      if cs.isEmpty then e
      else
        match attr_value with
        | Value.list vals =>
            vals.foldl (fun acc val =>
              if cs.contains val then acc
              else acc.add_attribute_error attr_name
                (val.pyStr ++ " is not one of the available choices: " ++
                  Value.pyRepr (Value.list cs))) e
        | v =>
            if cs.contains v then e
            else e.add_attribute_error attr_name
              (v.pyStr ++ " is not one of the available choices: " ++
                Value.pyRepr (Value.list cs))
  | Option.none => e

/-- One iteration of the `verify` attribute loop: the five checks in source
order; `Except.error` models the uncaught `TypeError` raised by
`number_range.in_range` on a non-numeric value. -/
def verifyAttribute (e : ResourceVerifyError) (attr_name : String)
    (attr : StackzillaAttribute) (attr_value : Value) :
    Except Unit ResourceVerifyError :=
  let e1 := choicesCheck e attr_name attr attr_value
  let e2 :=
    if attr.required && (attr_value == Value.none) then
      e1.add_attribute_error attr_name "Attribute is required but value is None"
    else e1
  let e3 :=
    if attr.dynamic && (attr_value != Value.none) then
      e2.add_attribute_error attr_name "Attribute is dynamic value can not be specified."
    else e2
  match attr.number_range with
  | some r =>
      match r.in_range attr_value with
      | Option.none => Except.error ()
      | some b =>
          let e4 :=
            if b then e3
            else e3.add_attribute_error attr_name
              ("Attribute value (" ++ attr_value.pyStr ++ ") not in range [" ++
                toString r.min ++ " - " ++ toString r.max ++ "].")
          Except.ok (typesCheck e4 attr_name attr attr_value)
  | Option.none => Except.ok (typesCheck e3 attr_name attr attr_value)

/-- The `verify` loop over the declared attributes, accumulating into the
pending `ResourceVerifyError`. -/
def verifyLoop (r : ResInstance) :
    List (String × StackzillaAttribute) → ResourceVerifyError →
    Except Unit ResourceVerifyError
  | [], e => Except.ok e
  | (attr_name, attr) :: rest, e =>
      match verifyAttribute e attr_name attr (r.get_attribute_value attr_name) with
      | Except.error u => Except.error u
      | Except.ok e' => verifyLoop r rest e'

/-- `StackzillaResource.verify`: walks every declared attribute, accumulating
all violations, and raises the single aggregated error only when at least one
violation was recorded. -/
def ResInstance.verify (r : ResInstance) : VerifyOutcome :=
  match verifyLoop r r.attributes ⟨r.path, []⟩ with
  | Except.error _ => VerifyOutcome.typeError
  | Except.ok e =>
      if e.attribute_errors.isEmpty then VerifyOutcome.ok
      else VerifyOutcome.verifyError e

/-- A node of the dependency graph (`stackzilla/graph/graph.py`): the
registered object together with the caller-supplied dependency list.  Objects
are identified by values of a type with decidable equality (numbers for
anonymous classes, resource paths for `StackzillaResource` classes, whose
metaclass compares by path); the `id()`-keyed node dictionary and the equality
used on dependency lists agree on distinct registered objects. -/
structure GNode (α : Type) where
  obj : α
  dependencies : List α
deriving DecidableEq

variable {α : Type} [DecidableEq α]

/-- The dependency-stripping step of one `resolve` iteration: for every object
of the current phase, `if node in deps: deps.remove(node)` (one occurrence). -/
def GNode.stripDeps (current : List α) (n : GNode α) : GNode α :=
  { n with dependencies := current.foldl (fun deps c => deps.erase c) n.dependencies }

/-- Rebuild the full `self._nodes` state after one iteration: nodes collected
into the current phase were deleted from the *working copy* before the strip
step, so they keep the dependency list they had; every other node takes the
state produced by the rest of the run. -/
def mergeFinal (nodes : List (GNode α)) (current : List α) (finalRem : List (GNode α)) :
    List (GNode α) :=
  nodes.map (fun n =>
    if current.contains n.obj then n
    else
      match finalRem.find? (fun m => m.obj == n.obj) with
      | some m => m
      | Option.none => n)

/-- The `while nodes:` loop of `Graph.resolve`, with explicit fuel (the
initial node count strictly bounds the number of iterations).  Returns the
phase list, or the stuck node list of the `CircularDependency` error, together
with the final state of every registered node's dependency list — the lists
are shared with the caller and mutated in place by the strip step. -/
def resolveAux : Nat → List (GNode α) → (Except (List (GNode α)) (List (List α))) × List (GNode α)
  | _, [] => (Except.ok [], [])
  | 0, nodes => (Except.error nodes, nodes)
  | fuel + 1, nodes =>
      let current := (nodes.filter (fun n => n.dependencies.isEmpty)).map GNode.obj
      let remaining := nodes.filter (fun n => !current.contains n.obj)
      let stripped := remaining.map (GNode.stripDeps current)
      if current.isEmpty then
        (Except.error stripped, stripped)
      else
        match resolveAux fuel stripped with
        | (Except.ok phases, finalRem) =>
            (Except.ok (current :: phases), mergeFinal nodes current finalRem)
        | (Except.error stuck, finalRem) =>
            (Except.error stuck, mergeFinal nodes current finalRem)

/-- `Graph.resolve`: layered topological sort over the registered nodes, with
the optional final reversal of the phase list.  The second component is the
state of the registered nodes (and their caller-supplied dependency lists)
after the call. -/
def Graph.resolve (nodes : List (GNode α)) (reverse : Bool) :
    (Except (List (GNode α)) (List (List α))) × List (GNode α) :=
  match resolveAux nodes.length nodes with
  | (Except.ok phases, final) =>
      (Except.ok (if reverse then phases.reverse else phases), final)
  | (Except.error stuck, final) => (Except.error stuck, final)

/-- `StackzillaDiffResult` (`stackzilla/diff/diff.py`). -/
inductive StackzillaDiffResult where
  | CONFLICT
  | DELETED
  | NEW
  | REBUILD_REQUIRED
  | SAME
deriving DecidableEq

/-- `StackzillaAttributeDiff`: one attribute's before/after values, the owning
descriptors on each side (absent implies new/deleted), and the result tag. -/
structure StackzillaAttributeDiff where
  src_value : Option Value
  dest_value : Option Value
  src_attribute : Option StackzillaAttribute
  dest_attribute : Option StackzillaAttribute
  result : StackzillaDiffResult
deriving DecidableEq

/-- First loop of `StackzillaDiff.compare_attributes`: scan the source's
attributes against the destination, threading the resource-level result and
the attribute-diff map. -/
def compareSrcLoop (source destination : ResInstance) :
    List (String × StackzillaAttribute) →
    StackzillaDiffResult × List (String × StackzillaAttributeDiff) →
    StackzillaDiffResult × List (String × StackzillaAttributeDiff)
  | [], acc => acc
  | (attr_name, src_attr) :: rest, (result, results) =>
      let src_val := source.get_attribute_value attr_name
      match PyDict.find? destination.attributes attr_name with
      | some dest_attr =>
          let dest_val := destination.get_attribute_value attr_name
          if src_val ≠ dest_val then
            if src_attr.modify_rebuild then
              compareSrcLoop source destination rest
                (StackzillaDiffResult.REBUILD_REQUIRED,
                  PyDict.insert results attr_name
                    ⟨some src_val, some dest_val, some src_attr, some dest_attr,
                      StackzillaDiffResult.CONFLICT⟩)
            else if src_attr.dynamic then
              compareSrcLoop source destination rest (result, results)
            else
              let result2 :=
                if result ≠ StackzillaDiffResult.REBUILD_REQUIRED then
                  StackzillaDiffResult.CONFLICT
                else result
              compareSrcLoop source destination rest
                (result2,
                  PyDict.insert results attr_name
                    ⟨some src_val, some dest_val, some src_attr, some dest_attr,
                      StackzillaDiffResult.CONFLICT⟩)
          else
            compareSrcLoop source destination rest (result, results)
      | Option.none =>
          let result2 :=
            if result ≠ StackzillaDiffResult.REBUILD_REQUIRED then
              StackzillaDiffResult.CONFLICT
            else result
          compareSrcLoop source destination rest
            (result2,
              PyDict.insert results attr_name
                ⟨some src_val, Option.none, some src_attr, Option.none,
                  StackzillaDiffResult.NEW⟩)

/-- Second loop of `StackzillaDiff.compare_attributes`: scan the destination's
attributes; attributes already classified by the first loop are skipped. -/
def compareDestLoop (source destination : ResInstance) :
    List (String × StackzillaAttribute) →
    StackzillaDiffResult × List (String × StackzillaAttributeDiff) →
    StackzillaDiffResult × List (String × StackzillaAttributeDiff)
  | [], acc => acc
  | (attr_name, dest_attr) :: rest, (result, results) =>
      let dest_val := destination.get_attribute_value attr_name
      match PyDict.find? source.attributes attr_name with
      | some src_attr =>
          if PyDict.contains results attr_name then
            compareDestLoop source destination rest (result, results)
          else
            let src_val := source.get_attribute_value attr_name
            if src_val ≠ dest_val then
              if dest_attr.modify_rebuild then
                compareDestLoop source destination rest
                  (StackzillaDiffResult.REBUILD_REQUIRED,
                    PyDict.insert results attr_name
                      ⟨some src_val, some dest_val, some src_attr, some dest_attr,
                        StackzillaDiffResult.CONFLICT⟩)
              else if dest_attr.dynamic then
                compareDestLoop source destination rest (result, results)
              else
                let result2 :=
                  if result ≠ StackzillaDiffResult.REBUILD_REQUIRED then
                    StackzillaDiffResult.CONFLICT
                  else result
                compareDestLoop source destination rest
                  (result2,
                    PyDict.insert results attr_name
                      ⟨some src_val, some dest_val, some src_attr, some dest_attr,
                        StackzillaDiffResult.CONFLICT⟩)
            else
              compareDestLoop source destination rest (result, results)
      | Option.none =>
          let result2 :=
            if result ≠ StackzillaDiffResult.REBUILD_REQUIRED then
              StackzillaDiffResult.CONFLICT
            else result
          compareDestLoop source destination rest
            (result2,
              PyDict.insert results attr_name
                ⟨Option.none, some dest_val, Option.none, some dest_attr,
                  StackzillaDiffResult.DELETED⟩)

/-- `StackzillaDiff.compare_attributes`: compare two resources, returning the
resource-level diff result (starting from `SAME`) and the per-attribute diff
map. -/
def StackzillaDiff.compare_attributes (source destination : ResInstance) :
    StackzillaDiffResult × List (String × StackzillaAttributeDiff) :=
  compareDestLoop source destination destination.attributes
    (compareSrcLoop source destination source.attributes (StackzillaDiffResult.SAME, []))

/-- Outcome of a `<attribute>_modified()` handler on a resource type: the
handler runs and returns (`ok`), or raises `AttributeModifyFailure` with the
given reason (`fail`). -/
inductive HookOutcome where
  | ok
  | fail (reason : String)
deriving DecidableEq

/-- A resource type (a `StackzillaResource` subclass): its normalized path,
declared attribute descriptors, the attribute values a fresh instance carries,
its version, its dependency list (`depends_on`, as paths), and the behaviour
of its lifecycle methods and modification handlers — `createFailure` /
`deleteFailure` are the `ResourceCreateFailure` / `ResourceDeleteFailure`
reasons `create()` / `delete()` raise, if any; `modifyHandlers` records which
`<attribute>_modified()` methods exist and what they do; `aggregateClaims`
records which attributes the `on_attributes_modified()` override marks as
handled. -/
structure ResourceClass where
  path : String
  attributes : List (String × StackzillaAttribute)
  values : List (String × Value)
  version : ResourceVersion
  dependsOn : List String := []
  createFailure : Option String := Option.none
  deleteFailure : Option String := Option.none
  modifyHandlers : List (String × HookOutcome) := []
  aggregateClaims : List String := []
deriving DecidableEq

/-- Instantiating a resource class: a fresh instance carries the class's
attribute values. -/
def ResourceClass.newInstance (c : ResourceClass) : ResInstance :=
  ⟨c.path, c.attributes, c.values⟩

/-- One persisted resource: its stored attribute values and the provider
version recorded when it was last saved. -/
structure DBResource where
  attributes : List (String × Value)
  version : ResourceVersion
deriving DecidableEq

/-- The persisted store, keyed by resource path. -/
structure Database where
  resources : List (String × DBResource)
deriving DecidableEq

/-- The two failure modes of `load_from_db`: `ResourceNotFound` (the resource
has no database entry) and `AttributeNotFound` (a declared attribute has no
stored value; never caught by the diff/apply code). -/
inductive LoadErr where
  | resourceNotFound
  | attributeNotFound
deriving DecidableEq

/-- The attribute-loading loop of `load_from_db`: fetch every declared
attribute from the store in declaration order. -/
def loadValues (dbr : DBResource) :
    List (String × StackzillaAttribute) → Except LoadErr (List (String × Value))
  | [] => Except.ok []
  | (attribute_name, _) :: rest =>
      match PyDict.find? dbr.attributes attribute_name with
      | some value =>
          match loadValues dbr rest with
          | Except.ok vs => Except.ok ((attribute_name, value) :: vs)
          | Except.error e => Except.error e
      | Option.none => Except.error LoadErr.attributeNotFound

/-- `StackzillaResource.load_from_db`: import the attribute values and the
saved provider version from the store. -/
def ResourceClass.load_from_db (c : ResourceClass) (db : Database) :
    Except LoadErr (ResInstance × ResourceVersion) :=
  match PyDict.find? db.resources c.path with
  | Option.none => Except.error LoadErr.resourceNotFound
  | some dbr =>
      match loadValues dbr c.attributes with
      | Except.error e => Except.error e
      | Except.ok vs => Except.ok (⟨c.path, c.attributes, vs⟩, dbr.version)

/-- `StackzillaResource.path(remove_prefix=True)`: the normalized path with
the leading `..` dropped. -/
def pathDisplay (p : String) : String :=
  if [Char.ofNat 0x2e, Char.ofNat 0x2e].isPrefixOf p.data then ⟨p.data.drop 2⟩ else p

/-- `StackzillaDiff.compare_versions`: `some` error message exactly when the
source's declared major version differs from the destination's saved major
version. -/
def StackzillaDiff.compare_versions (source : ResourceClass)
    (dest_saved : ResourceVersion) : Option String :=
  if source.version.major ≠ dest_saved.major then
    some (pathDisplay source.path ++ " provider version mismatch: " ++
      toString source.version.major ++ " != " ++ toString dest_saved.major)
  else Option.none

/-- `StackzillaResourceDiff`: a resource's source/destination sides (either
may be absent), the resource-level result and the attribute-diff map. -/
structure StackzillaResourceDiff where
  src_resource : Option ResourceClass
  dest_resource : Option ResourceClass
  result : StackzillaDiffResult
  attribute_diffs : List (String × StackzillaAttributeDiff)
deriving DecidableEq

/-- `StackzillaBlueprintDiff`: the map from resource path to resource diff and
the overall result (the code comment asserts the valid values are `SAME` or
`CONFLICT`). -/
structure StackzillaBlueprintDiff where
  resource_diffs : List (String × StackzillaResourceDiff)
  result : StackzillaDiffResult
deriving DecidableEq

/-- Errors that abort a `diff()` call: `VersionIncompatibility`, an uncaught
load failure, or the `RuntimeError` guarding an invalid attribute-comparison
result. -/
inductive DiffErr where
  | versionIncompatibility (msg : String)
  | loadFailure (e : LoadErr)
  | invalidDiffResult
deriving DecidableEq

/-- The in-place key rewrite of `diff()`: for every key of the snapshot,
re-insert the value under `key.replace(pre, '.')` and delete the old key. -/
def rewriteKeys (pre : String) (resources : List (String × ResourceClass)) :
    List (String × ResourceClass) :=
  (PyDict.keys resources).foldl (fun acc resource_name =>
    match PyDict.find? acc resource_name with
    | some v =>
        PyDict.erase (PyDict.insert acc (pyReplace resource_name pre ".") v) resource_name
    | Option.none => acc) resources

/-- The destination-pruning loop of `diff()`: any destination resource whose
persisted values cannot be loaded (`ResourceNotFound`) is deleted from the
destination map; an `AttributeNotFound` from the store propagates. -/
def pruneLoop (db : Database) :
    List String → List (String × ResourceClass) →
    List (String × ResourceClass) × Option LoadErr
  | [], dest => (dest, Option.none)
  | resource_name :: rest, dest =>
      match PyDict.find? dest resource_name with
      | Option.none => pruneLoop db rest dest
      | some cls =>
          match cls.load_from_db db with
          | Except.ok _ => pruneLoop db rest dest
          | Except.error LoadErr.resourceNotFound =>
              pruneLoop db rest (PyDict.erase dest resource_name)
          | Except.error LoadErr.attributeNotFound =>
              (dest, some LoadErr.attributeNotFound)

/-- Attribute diffs for a resource present only in the source: every
attribute is `NEW` with no destination side. -/
def newAttrDiffs (src : ResInstance) : List (String × StackzillaAttributeDiff) :=
  src.attributes.foldl (fun acc p =>
    PyDict.insert acc p.1
      ⟨some (src.get_attribute_value p.1), Option.none, some p.2, Option.none,
        StackzillaDiffResult.NEW⟩) []

/-- Attribute diffs for a resource present only in the destination: every
attribute is `DELETED` with no source side. -/
def oldAttrDiffs (dest : ResInstance) : List (String × StackzillaAttributeDiff) :=
  dest.attributes.foldl (fun acc p =>
    PyDict.insert acc p.1
      ⟨Option.none, some (dest.get_attribute_value p.1), Option.none, some p.2,
        StackzillaDiffResult.DELETED⟩) []

/-- Pass 1 of `diff()`: walk the source resources, comparing against the
destination where present (version check first, then attribute comparison)
and recording `NEW` resource diffs otherwise.  The `result` accumulator is
overwritten by each non-`SAME` resource. -/
def diffPass1 (db : Database) (dest_resources : List (String × ResourceClass)) :
    List (String × ResourceClass) →
    StackzillaDiffResult → List (String × StackzillaResourceDiff) →
    Except DiffErr (StackzillaDiffResult × List (String × StackzillaResourceDiff))
  | [], result, diffs => Except.ok (result, diffs)
  | (resource_name, src_cls) :: rest, result, diffs =>
      let src_inst := src_cls.newInstance
      match PyDict.find? dest_resources resource_name with
      | some dest_cls =>
          match dest_cls.load_from_db db with
          | Except.error e => Except.error (DiffErr.loadFailure e)
          | Except.ok (dest_inst, dest_saved) =>
              match StackzillaDiff.compare_versions src_cls dest_saved with
              | some msg => Except.error (DiffErr.versionIncompatibility msg)
              | Option.none =>
                  match StackzillaDiff.compare_attributes src_inst dest_inst with
                  | (StackzillaDiffResult.SAME, _) =>
                      diffPass1 db dest_resources rest result
                        (PyDict.insert diffs resource_name
                          ⟨some src_cls, some dest_cls, StackzillaDiffResult.SAME, []⟩)
                  | (StackzillaDiffResult.CONFLICT, attr_diffs) =>
                      diffPass1 db dest_resources rest StackzillaDiffResult.CONFLICT
                        (PyDict.insert diffs resource_name
                          ⟨some src_cls, some dest_cls, StackzillaDiffResult.CONFLICT,
                            attr_diffs⟩)
                  | (StackzillaDiffResult.REBUILD_REQUIRED, attr_diffs) =>
                      diffPass1 db dest_resources rest StackzillaDiffResult.REBUILD_REQUIRED
                        (PyDict.insert diffs resource_name
                          ⟨some src_cls, some dest_cls, StackzillaDiffResult.REBUILD_REQUIRED,
                            attr_diffs⟩)
                  | (_, _) => Except.error DiffErr.invalidDiffResult
      | Option.none =>
          diffPass1 db dest_resources rest StackzillaDiffResult.CONFLICT
            (PyDict.insert diffs resource_name
              ⟨some src_cls, Option.none, StackzillaDiffResult.NEW,
                newAttrDiffs src_inst⟩)

/-- Pass 2 of `diff()`: walk the destination resources, recording a `DELETED`
resource diff for every path pass 1 did not handle. -/
def diffPass2 :
    List (String × ResourceClass) →
    StackzillaDiffResult → List (String × StackzillaResourceDiff) →
    StackzillaDiffResult × List (String × StackzillaResourceDiff)
  | [], result, diffs => (result, diffs)
  | (resource_name, dest_cls) :: rest, result, diffs =>
      let dest_inst := dest_cls.newInstance
      if PyDict.contains diffs resource_name then
        diffPass2 rest result diffs
      else
        diffPass2 rest StackzillaDiffResult.CONFLICT
          (PyDict.insert diffs resource_name
            ⟨Option.none, some dest_cls, StackzillaDiffResult.DELETED,
              oldAttrDiffs dest_inst⟩)

/-- The observable outcome of one `StackzillaDiff.diff` call: the two resource
maps as the call leaves them (the key rewrite and the destination pruning act
on the blueprints in place), the `_result` member after the call, and the
exception raised, if any. -/
structure DiffOutcome where
  src_resources : List (String × ResourceClass)
  dest_resources : List (String × ResourceClass)
  result : Option StackzillaBlueprintDiff
  error : Option DiffErr
deriving DecidableEq

/-- `StackzillaDiff.diff`: rewrite both blueprints' keys in place, prune the
unloadable destination resources, then run the two passes.  `prev` is the
`_result` member before the call; it is replaced only when the whole call
succeeds. -/
def StackzillaDiff.diff (db : Database) (diskPre dbPre : String)
    (source destination : List (String × ResourceClass))
    (prev : Option StackzillaBlueprintDiff) : DiffOutcome :=
  let src_resources := rewriteKeys diskPre source
  let dest0 := rewriteKeys dbPre destination
  match pruneLoop db (PyDict.keys dest0) dest0 with
  | (dest1, some e) => ⟨src_resources, dest1, prev, some (DiffErr.loadFailure e)⟩
  | (dest1, Option.none) =>
      match diffPass1 db dest1 src_resources StackzillaDiffResult.SAME [] with
      | Except.error e => ⟨src_resources, dest1, prev, some e⟩
      | Except.ok (result1, diffs1) =>
          match diffPass2 dest1 result1 diffs1 with
          | (result2, diffs2) =>
              ⟨src_resources, dest1, some ⟨diffs2, result2⟩, Option.none⟩

/-- `AttributeModified` (`stackzilla/resource/base.py`): modification-tracking
record built by `apply()` for every changed attribute of a `CONFLICT`
resource.  `error` holds the reason of an `AttributeModifyFailure` raised by
the per-attribute handler. -/
structure AttributeModified where
  name : String
  previous_value : Value
  new_value : Value
  handled : Bool := false
  error : Option String := Option.none
deriving DecidableEq

/-- Exceptions raised by one resource step of the `apply()` phase walk, which
propagate out of `apply()` immediately. -/
inductive StepExc where
  | unhandled (attrs : List AttributeModified)
  | deleteFailure (resource_name reason : String)
  | fatal
deriving DecidableEq

/-- The exceptions `apply()` can raise. -/
inductive ApplyException where
  | circularDependency (stuck : List (GNode String))
  | unhandledAttributeModifications (attrs : List AttributeModified)
  | applyErrors (errors : List String)
  | resourceDeleteFailure (resource_name reason : String)
  | fatalError
deriving DecidableEq

/-- How an escaping `StepExc` surfaces from `apply()`. -/
def StepExc.toApplyException : StepExc → ApplyException
  | StepExc.unhandled attrs => ApplyException.unhandledAttributeModifications attrs
  | StepExc.deleteFailure n r => ApplyException.resourceDeleteFailure n r
  | StepExc.fatal => ApplyException.fatalError

/-- `StackzillaDB.db.update_attribute`: store a new value for one attribute of
a persisted resource. -/
def Database.update_attribute (db : Database) (path attr_name : String) (value : Value) :
    Database :=
  match PyDict.find? db.resources path with
  | some dbr =>
      ⟨PyDict.insert db.resources path ⟨PyDict.insert dbr.attributes attr_name value, dbr.version⟩⟩
  | Option.none => db

/-- `StackzillaResource.delete_from_db`: remove the resource (and its
attributes) from the store; a missing entry is tolerated. -/
def Database.delete_resource (db : Database) (path : String) : Database :=
  ⟨PyDict.erase db.resources path⟩

/-- `StackzillaResource.create_in_db`: persist the resource, its attribute
values and its version. -/
def ResourceClass.create_in_db (c : ResourceClass) (db : Database) : Database :=
  ⟨PyDict.insert db.resources c.path
    ⟨c.attributes.map (fun p => (p.1, c.newInstance.get_attribute_value p.1)), c.version⟩⟩

/-- Update the entry stored under a key, when present. -/
def PyDict.modify {α : Type} (m : List (String × α)) (k : String) (f : α → α) :
    List (String × α) :=
  match m with
  | [] => []
  | (k', v) :: rest =>
      if k' = k then (k', f v) :: rest else (k', v) :: PyDict.modify rest k f

/-- The `modified_attrs` dictionary `apply()` builds for a `CONFLICT`
resource: one unhandled `AttributeModified` per changed attribute. -/
def buildModified (ad : List (String × StackzillaAttributeDiff)) :
    List (String × AttributeModified) :=
  ad.foldl (fun acc p =>
    PyDict.insert acc p.1
      ⟨p.1, p.2.dest_value.getD Value.none, p.2.src_value.getD Value.none, false, Option.none⟩) []

/-- The per-attribute handler loop of `apply()`: for every changed attribute,
`_on_attribute_modified` invokes `<name>_modified()` when the resource type
defines one (marking the attribute handled), records the reason when the
handler raises `AttributeModifyFailure`, and leaves the attribute untouched
when no handler exists. -/
def runModifyHandlers (cls : ResourceClass) :
    List (String × StackzillaAttributeDiff) → List (String × AttributeModified) →
    List (String × AttributeModified)
  | [], acc => acc
  | (attr_name, _) :: rest, acc =>
      match PyDict.find? cls.modifyHandlers attr_name with
      | Option.none => runModifyHandlers cls rest acc
      | some HookOutcome.ok =>
          runModifyHandlers cls rest
            (PyDict.modify acc attr_name (fun m => { m with handled := true }))
      | some (HookOutcome.fail reason) =>
          runModifyHandlers cls rest
            (PyDict.modify acc attr_name (fun m => { m with error := some reason }))

/-- The aggregate `on_attributes_modified()` hook: the override marks the
attributes it claims as handled. -/
def runAggregateHook (cls : ResourceClass) (modified : List (String × AttributeModified)) :
    List (String × AttributeModified) :=
  cls.aggregateClaims.foldl
    (fun acc n => PyDict.modify acc n (fun m => { m with handled := true })) modified

/-- The final attribute walk of the `CONFLICT` branch: attributes whose
handler raised become apply errors (and are not persisted), attributes nobody
handled are collected, and every handled attribute is persisted to the store
with its new value. -/
def conflictFinishLoop (cls : ResourceClass) :
    List (String × AttributeModified) → Database → List String → List AttributeModified →
    Database × List String × List AttributeModified
  | [], db, errors, unhandled_attributes => (db, errors, unhandled_attributes)
  | (_, attrM) :: rest, db, errors, unhandled_attributes =>
      match attrM.error with
      | some reason =>
          conflictFinishLoop cls rest db
            (errors ++ [pathDisplay cls.path ++ ": " ++ attrM.name ++ " - " ++ reason ++ " "])
            unhandled_attributes
      | Option.none =>
          if attrM.handled = false then
            conflictFinishLoop cls rest db errors (unhandled_attributes ++ [attrM])
          else
            conflictFinishLoop cls rest
              (db.update_attribute cls.path attrM.name attrM.new_value) errors unhandled_attributes

/-- The `CONFLICT` branch of the `apply()` phase walk (per-attribute handlers,
aggregate hook, persistence, and the `UnhandledAttributeModifications` raise
when any attribute was left unhandled). -/
def processConflict (cls : ResourceClass) (ad : List (String × StackzillaAttributeDiff))
    (db : Database) (errors : List String) :
    Database × List String × Option StepExc :=
  let modified1 := runModifyHandlers cls ad (buildModified ad)
  let modified2 := runAggregateHook cls modified1
  match conflictFinishLoop cls modified2 db errors [] with
  | (db2, errors2, unhandled_attributes) =>
      if unhandled_attributes.isEmpty then (db2, errors2, Option.none)
      else (db2, errors2, some (StepExc.unhandled unhandled_attributes))

/-- One resource of the `apply()` phase walk: reload the persisted values
(silently tolerating a missing resource), look up the precomputed resource
diff, and dispatch on its result. -/
def applyResource (bpdiff : StackzillaBlueprintDiff) (cls : ResourceClass)
    (db : Database) (errors : List String) :
    Database × List String × Option StepExc :=
  match cls.load_from_db db with
  | Except.error LoadErr.attributeNotFound => (db, errors, some StepExc.fatal)
  | _ =>
      match PyDict.find? bpdiff.resource_diffs cls.path with
      | Option.none => (db, errors, some StepExc.fatal)
      | some d =>
          match d.result with
          | StackzillaDiffResult.CONFLICT => processConflict cls d.attribute_diffs db errors
          | StackzillaDiffResult.REBUILD_REQUIRED =>
              match d.dest_resource with
              | Option.none => (db, errors, some StepExc.fatal)
              | some dr =>
                  match dr.deleteFailure with
                  | some reason => (db, errors, some (StepExc.deleteFailure dr.path reason))
                  | Option.none =>
                      let db2 := db.delete_resource dr.path
                      match d.src_resource with
                      | Option.none => (db2, errors, some StepExc.fatal)
                      | some sr =>
                          match sr.createFailure with
                          | some reason =>
                              (db2, errors ++ [sr.path ++ ": " ++ reason], Option.none)
                          | Option.none => (sr.create_in_db db2, errors, Option.none)
          | StackzillaDiffResult.DELETED =>
              match d.dest_resource with
              | Option.none => (db, errors, some StepExc.fatal)
              | some dr =>
                  match dr.deleteFailure with
                  | some reason => (db, errors ++ [dr.path ++ ": " ++ reason], Option.none)
                  | Option.none => (db.delete_resource dr.path, errors, Option.none)
          | StackzillaDiffResult.NEW =>
              match d.src_resource with
              | Option.none => (db, errors, some StepExc.fatal)
              | some sr =>
                  match sr.createFailure with
                  | some reason => (db, errors ++ [sr.path ++ ": " ++ reason], Option.none)
                  | Option.none => (sr.create_in_db db, errors, Option.none)
          | StackzillaDiffResult.SAME => (db, errors, Option.none)

/-- The class a phase member stands for: the phase holds the registered class
objects themselves; distinct classes carry distinct paths. -/
def findByPath (resources : List (String × ResourceClass)) (p : String) :
    Option ResourceClass :=
  (resources.find? (fun kv => kv.2.path == p)).map Prod.snd

/-- One phase of the `apply()` walk: process each resource in order, stopping
at the first escaping exception. -/
def processPhase (src_resources : List (String × ResourceClass))
    (bpdiff : StackzillaBlueprintDiff) :
    List String → Database → List String → Database × List String × Option StepExc
  | [], db, errors => (db, errors, Option.none)
  | p :: rest, db, errors =>
      match findByPath src_resources p with
      | Option.none => (db, errors, some StepExc.fatal)
      | some cls =>
          match applyResource bpdiff cls db errors with
          | (db2, errors2, some e) => (db2, errors2, some e)
          | (db2, errors2, Option.none) => processPhase src_resources bpdiff rest db2 errors2

/-- The phase loop of `apply()`: after each phase, any accumulated errors stop
the walk and raise the aggregate `ApplyErrors`; an escaping exception
surfaces as itself. -/
def applyPhases (src_resources : List (String × ResourceClass))
    (bpdiff : StackzillaBlueprintDiff) :
    List (List String) → Database → List String → Option ApplyException × Database
  | [], db, _ => (Option.none, db)
  | phase :: rest, db, errors =>
      match processPhase src_resources bpdiff phase db errors with
      | (db2, _, some e) => (some e.toApplyException, db2)
      | (db2, errors2, Option.none) =>
          if errors2.isEmpty then applyPhases src_resources bpdiff rest db2 errors2
          else (some (ApplyException.applyErrors errors2), db2)

/-- The pre-phase deletion step of `apply()`: every destination resource
absent from the source blueprint is deleted (its `delete()` raising
propagates) and removed from the store. -/
def deleteRemovedLoop (src_resources : List (String × ResourceClass)) :
    List (String × ResourceClass) → Database → Database × Option StepExc
  | [], db => (db, Option.none)
  | (resource_name, cls) :: rest, db =>
      if PyDict.contains src_resources resource_name then
        deleteRemovedLoop src_resources rest db
      else
        match cls.deleteFailure with
        | some reason => (db, some (StepExc.deleteFailure cls.path reason))
        | Option.none => deleteRemovedLoop src_resources rest (db.delete_resource cls.path)

/-- `StackzillaDiff.apply`: resolve the source blueprint's dependency graph
into phases, delete the resources the source no longer declares, then walk
the phases against the precomputed diff (`bpdiff`); the blueprint text
snapshot replacement between those two steps belongs to the out-of-scope
storage collaborator.  Returns the exception raised (if any) and the store as
the call leaves it. -/
def StackzillaDiff.apply (src_resources dest_resources : List (String × ResourceClass))
    (bpdiff : StackzillaBlueprintDiff) (db : Database) :
    Option ApplyException × Database :=
  let nodes := src_resources.map (fun kv => GNode.mk kv.2.path kv.2.dependsOn)
  match (Graph.resolve nodes false).fst with
  | Except.error stuck => (some (ApplyException.circularDependency stuck), db)
  | Except.ok phases =>
      match deleteRemovedLoop src_resources dest_resources db with
      | (db1, some e) => (some e.toApplyException, db1)
      | (db1, Option.none) => applyPhases src_resources bpdiff phases db1 []

/-- Decidable equality for `Except` values. -/
instance {ε σ : Type} [DecidableEq ε] [DecidableEq σ] : DecidableEq (Except ε σ) :=
  fun a b =>
    match a, b with
    | Except.ok x, Except.ok y =>
        if h : x = y then isTrue (h ▸ rfl) else isFalse (fun hh => h (Except.ok.inj hh))
    | Except.error x, Except.error y =>
        if h : x = y then isTrue (h ▸ rfl) else isFalse (fun hh => h (Except.error.inj hh))
    | Except.ok _, Except.error _ => isFalse (fun h => Except.noConfusion h)
    | Except.error _, Except.ok _ => isFalse (fun h => Except.noConfusion h)

/-- Whether a resource's persisted values load successfully. -/
def loadOk (db : Database) (c : ResourceClass) : Bool :=
  match c.load_from_db db with
  | Except.ok _ => true
  | Except.error _ => false

/-- The stored value of one attribute of one persisted resource. -/
def findAttr (db : Database) (path attr_name : String) : Option Value :=
  (PyDict.find? db.resources path).bind (fun r => PyDict.find? r.attributes attr_name)

/-- Whether `pat` occurs as a contiguous substring (Python `pat in s`). -/
def strOccurs (pat : List Char) : List Char → Bool
  | [] => pat.isEmpty
  | c :: cs => pat.isPrefixOf (c :: cs) || strOccurs pat cs

/-- One logical resource of a "valid resource set": the path suffix it is
stored under (beginning with a dot), its declared attributes, the values its
declaration assigns, and its provider version. -/
structure LogicalResource where
  sub : String
  attributes : List (String × StackzillaAttribute)
  values : List (String × Value)
  version : ResourceVersion
deriving DecidableEq

/-- The normalized resource path of a logical resource. -/
def LogicalResource.path (r : LogicalResource) : String := "." ++ r.sub

/-- The resource class a logical resource declares. -/
def LogicalResource.cls (r : LogicalResource) : ResourceClass :=
  { path := r.path, attributes := r.attributes, values := r.values, version := r.version }

/-- The on-disk blueprint of a resource set: every resource keyed under the
disk namespace. -/
def mkSrcBlueprint (diskPre : String) (X : List LogicalResource) :
    List (String × ResourceClass) :=
  X.map (fun r => (diskPre ++ r.sub, r.cls))

/-- The in-database blueprint of the same resource set, keyed under the
database namespace. -/
def mkDestBlueprint (dbPre : String) (X : List LogicalResource) :
    List (String × ResourceClass) :=
  X.map (fun r => (dbPre ++ r.sub, r.cls))

/-- The store after the resource set was applied: every resource persisted
with exactly its declared attribute values and version. -/
def mkDB (X : List LogicalResource) : Database :=
  ⟨X.map (fun r =>
    (r.path,
      ⟨r.attributes.map (fun p => (p.1, r.cls.newInstance.get_attribute_value p.1)),
        r.version⟩))⟩

/-!  Concrete inputs used by the example-level theorems below. -/

/-- A three-node linear dependency chain: node 1 depends on 2, 2 depends
on 3. -/
def exChain : List (GNode Nat) := [⟨1, [2]⟩, ⟨2, [3]⟩, ⟨3, []⟩]

/-- A version used by the concrete diff/apply scenarios. -/
def exVer : ResourceVersion := ⟨1, 0, 0, "v"⟩

/-- A rebuild-on-change attribute. -/
def exRebuildAttr : StackzillaAttribute := { modify_rebuild := true }

/-- A dynamic attribute that is also rebuild-on-change. -/
def exDynRebuildAttr : StackzillaAttribute := { dynamic := true, modify_rebuild := true }

/-- Source side of the dynamic-and-rebuild attribute comparison. -/
def exDynSrc : ResInstance := ⟨"p", [("a", exDynRebuildAttr)], [("a", Value.int 1)]⟩

/-- Destination side of the dynamic-and-rebuild attribute comparison. -/
def exDynDest : ResInstance := ⟨"p", [("a", exDynRebuildAttr)], [("a", Value.int 2)]⟩

/-- A plain dynamic attribute (no rebuild). -/
def exDynAttr : StackzillaAttribute := { dynamic := true }

/-- Source side with one differing dynamic attribute. -/
def exDynOnlySrc : ResInstance := ⟨"p", [("a", exDynAttr)], [("a", Value.int 1)]⟩

/-- Destination side with one differing dynamic attribute. -/
def exDynOnlyDest : ResInstance := ⟨"p", [("a", exDynAttr)], [("a", Value.int 2)]⟩

/-- A resource class whose one attribute is rebuild-on-change. -/
def exRebuildCls : ResourceClass :=
  { path := "..m.R", attributes := [("a", exRebuildAttr)],
    values := [("a", Value.int 2)], version := exVer }

/-- A store holding `..m.R` with a differing value for its rebuild
attribute. -/
def exRebuildDB : Database := ⟨[("..m.R", ⟨[("a", Value.int 1)], exVer⟩)]⟩

/-- The diff of the rebuild scenario. -/
def exRebuildDiff : DiffOutcome :=
  StackzillaDiff.diff exRebuildDB "sz_disk_bp" "sz_db_bp"
    [("sz_disk_bp.m.R", exRebuildCls)] [("sz_db_bp.m.R", exRebuildCls)] Option.none

/-- The rebuild scenario's source class declared under a newer major
version. -/
def exRebuildClsV2 : ResourceClass := { exRebuildCls with version := ⟨2, 0, 0, "v"⟩ }

/-- A resource with one attribute constrained to `types=[int, str]` whose
value is the integer 5. -/
def exTypesRes : ResInstance :=
  { path := "..m.R"
    attributes := [("a", { types := some [PyType.int, PyType.str] })]
    values := [("a", Value.int 5)] }

/-- A resource class whose `create()` raises `ResourceCreateFailure`. -/
def exCreateFailCls : ResourceClass :=
  { path := "..m.r1", attributes := [("x", {})], values := [("x", Value.int 1)],
    version := exVer, createFailure := some "boom" }

/-- A resource class with one plain attribute `a` and no modification
handlers. -/
def exNoHookCls : ResourceClass :=
  { path := "..m.r2", attributes := [("a", {})], values := [("a", Value.int 2)],
    version := exVer }

/-- The same resource class with an `a_modified()` handler. -/
def exHookCls : ResourceClass :=
  { exNoHookCls with modifyHandlers := [("a", HookOutcome.ok)] }

/-- The attribute diff of `a` changing from 1 to 2. -/
def exConflictAttrDiffs : List (String × StackzillaAttributeDiff) :=
  [("a", ⟨some (Value.int 2), some (Value.int 1), some {}, some {},
    StackzillaDiffResult.CONFLICT⟩)]

/-- A store holding `..m.r2` with the old value of `a`. -/
def exApplyDB : Database := ⟨[("..m.r2", ⟨[("a", Value.int 1)], exVer⟩)]⟩

/-- A blueprint diff with a failing `NEW` resource and an unhandled `CONFLICT`
resource in the same phase. -/
def exUnhandledBp : StackzillaBlueprintDiff :=
  ⟨[("..m.r1", ⟨some exCreateFailCls, Option.none, StackzillaDiffResult.NEW,
      newAttrDiffs exCreateFailCls.newInstance⟩),
    ("..m.r2", ⟨some exNoHookCls, some exNoHookCls, StackzillaDiffResult.CONFLICT,
      exConflictAttrDiffs⟩)],
    StackzillaDiffResult.CONFLICT⟩

/-- The same blueprint diff with the conflict's attribute handled. -/
def exHandledBp : StackzillaBlueprintDiff :=
  ⟨[("..m.r1", ⟨some exCreateFailCls, Option.none, StackzillaDiffResult.NEW,
      newAttrDiffs exCreateFailCls.newInstance⟩),
    ("..m.r2", ⟨some exHookCls, some exHookCls, StackzillaDiffResult.CONFLICT,
      exConflictAttrDiffs⟩)],
    StackzillaDiffResult.CONFLICT⟩

/-- Source blueprint for the unhandled-conflict apply run. -/
def exUnhandledSrc : List (String × ResourceClass) :=
  [("..m.r1", exCreateFailCls), ("..m.r2", exNoHookCls)]

/-- Source blueprint for the handled-conflict apply run. -/
def exHandledSrc : List (String × ResourceClass) :=
  [("..m.r1", exCreateFailCls), ("..m.r2", exHookCls)]

/-- A resource class used by the C6 witness scenario: `a` has no handler, `b`
has a succeeding handler, `c` has a failing handler, `d` is claimed by the
aggregate hook. -/
def exC6Cls : ResourceClass :=
  { path := "..m.rc", attributes := [("a", {}), ("b", {}), ("c", {}), ("d", {})],
    values := [], version := exVer,
    modifyHandlers := [("b", HookOutcome.ok), ("c", HookOutcome.fail "nope")],
    aggregateClaims := ["d"] }

/-- Attribute diffs of the C6 witness scenario. -/
def exC6Diffs : List (String × StackzillaAttributeDiff) :=
  [("a", ⟨some (Value.int 10), some (Value.int 0), some {}, some {},
      StackzillaDiffResult.CONFLICT⟩),
   ("b", ⟨some (Value.int 20), some (Value.int 0), some {}, some {},
      StackzillaDiffResult.CONFLICT⟩),
   ("c", ⟨some (Value.int 30), some (Value.int 0), some {}, some {},
      StackzillaDiffResult.CONFLICT⟩),
   ("d", ⟨some (Value.int 40), some (Value.int 0), some {}, some {},
      StackzillaDiffResult.CONFLICT⟩)]

/-- Blueprint diff of the C6 witness scenario. -/
def exC6Bp : StackzillaBlueprintDiff :=
  ⟨[("..m.rc", ⟨some exC6Cls, some exC6Cls, StackzillaDiffResult.CONFLICT, exC6Diffs⟩)],
    StackzillaDiffResult.CONFLICT⟩

/-- Store of the C6 witness scenario. -/
def exC6DB : Database :=
  ⟨[("..m.rc", ⟨[("a", Value.int 0), ("b", Value.int 0), ("c", Value.int 0),
      ("d", Value.int 0)], exVer⟩)]⟩

/-- A logical resource set with two resources, used as a witness of the
`diff(X, X)` idempotence theorem. -/
def exSetX : List LogicalResource :=
  [⟨".m.A", [("a", {})], [("a", Value.int 1)], exVer⟩,
   ⟨".m.B", [("b", { default := Value.str "x" })], [], exVer⟩]

/-!  Dictionary lemmas. -/

/-- Looking up a key just inserted. -/
theorem PyDict.find?_insert_self {α : Type} (m : List (String × α)) (k : String) (v : α) :
    PyDict.find? (PyDict.insert m k v) k = some v := by
  induction m with
  | nil => simp [PyDict.insert, PyDict.find?]
  | cons hd tl ih =>
      obtain ⟨k', v'⟩ := hd
      by_cases h : k' = k
      · simp [PyDict.insert, PyDict.find?, h]
      · simp [PyDict.insert, PyDict.find?, h, ih]

/-- Inserting under one key leaves the other keys' lookups unchanged. -/
theorem PyDict.find?_insert_ne {α : Type} (m : List (String × α)) (k k' : String) (v : α)
    (h : k ≠ k') : PyDict.find? (PyDict.insert m k v) k' = PyDict.find? m k' := by
  induction m with
  | nil => simp [PyDict.insert, PyDict.find?, h]
  | cons hd tl ih =>
      obtain ⟨k0, v0⟩ := hd
      by_cases h0 : k0 = k
      · subst h0
        simp [PyDict.insert, PyDict.find?, h]
      · simp only [PyDict.insert, if_neg h0]
        by_cases h1 : k0 = k'
        · simp [PyDict.find?, h1]
        · simp [PyDict.find?, h1, ih]

/-- A found entry is a member of the dictionary. -/
theorem PyDict.find?_mem {α : Type} {m : List (String × α)} {k : String} {v : α}
    (h : PyDict.find? m k = some v) : (k, v) ∈ m := by
  induction m with
  | nil => simp [PyDict.find?] at h
  | cons hd tl ih =>
      obtain ⟨k0, v0⟩ := hd
      by_cases h0 : k0 = k
      · subst h0
        simp [PyDict.find?] at h
        simp [h]
      · simp [PyDict.find?, h0] at h
        exact List.mem_cons_of_mem _ (ih h)

/-- A lookup fails exactly when the key is absent. -/
theorem PyDict.find?_eq_none_iff {α : Type} (m : List (String × α)) (k : String) :
    PyDict.find? m k = Option.none ↔ k ∉ PyDict.keys m := by
  induction m with
  | nil => simp [PyDict.find?, PyDict.keys]
  | cons hd tl ih =>
      obtain ⟨k0, v0⟩ := hd
      by_cases h0 : k0 = k
      · subst h0
        simp [PyDict.find?, PyDict.keys]
      · simp [PyDict.find?, PyDict.keys, h0, ih, Ne.symm h0]

/-- Membership after an insertion: the entry inserted, or an original entry. -/
theorem PyDict.mem_insert {α : Type} {m : List (String × α)} {k : String} {v : α}
    {p : String × α} (h : p ∈ PyDict.insert m k v) : p = (k, v) ∨ p ∈ m := by
  induction m with
  | nil => simpa [PyDict.insert] using h
  | cons hd tl ih =>
      obtain ⟨k0, v0⟩ := hd
      by_cases h0 : k0 = k
      · simp only [PyDict.insert, if_pos h0] at h
        rcases List.mem_cons.mp h with h1 | h1
        · exact Or.inl h1
        · exact Or.inr (List.mem_cons_of_mem _ h1)
      · simp only [PyDict.insert, if_neg h0] at h
        rcases List.mem_cons.mp h with h1 | h1
        · exact Or.inr (by simp [h1])
        · rcases ih h1 with h2 | h2
          · exact Or.inl h2
          · exact Or.inr (List.mem_cons_of_mem _ h2)

/-- Inserting a fresh key appends the entry at the end. -/
theorem PyDict.insert_of_not_mem {α : Type} {m : List (String × α)} {k : String} (v : α)
    (h : k ∉ PyDict.keys m) : PyDict.insert m k v = m ++ [(k, v)] := by
  induction m with
  | nil => simp [PyDict.insert]
  | cons hd tl ih =>
      obtain ⟨k0, v0⟩ := hd
      simp only [PyDict.keys, List.map_cons, List.mem_cons] at h
      push_neg at h
      simp only [PyDict.insert, if_neg (Ne.symm h.1), List.cons_append]
      rw [ih h.2]

/-- The key just inserted is present. -/
theorem PyDict.contains_insert_self {α : Type} (m : List (String × α)) (k : String) (v : α) :
    PyDict.contains (PyDict.insert m k v) k = true := by
  simp [PyDict.contains, PyDict.find?_insert_self]

/-- Inserting preserves the presence of any key. -/
theorem PyDict.contains_insert_of_contains {α : Type} (m : List (String × α))
    (k k' : String) (v : α) (h : PyDict.contains m k' = true) :
    PyDict.contains (PyDict.insert m k v) k' = true := by
  by_cases hk : k = k'
  · subst hk
    exact PyDict.contains_insert_self m k v
  · simpa [PyDict.contains, PyDict.find?_insert_ne m k k' v hk] using h

/-!  Attribute-comparison lemmas. -/

/-- The source scan records no entry under a name whose source descriptors are
all dynamic without rebuild-on-change, provided the destination declares the
name. -/
theorem compareSrcLoop_no_entry (source destination : ResInstance) (name : String)
    (hdp : (PyDict.find? destination.attributes name).isSome) :
    ∀ (entries : List (String × StackzillaAttribute))
      (acc : StackzillaDiffResult × List (String × StackzillaAttributeDiff)),
    (∀ p ∈ entries, p.1 = name → p.2.dynamic = true ∧ p.2.modify_rebuild = false) →
    PyDict.find? acc.2 name = Option.none →
    PyDict.find? (compareSrcLoop source destination entries acc).2 name = Option.none
  | [], _, _, hacc => hacc
  | (n, sa) :: rest, (result, results), hents, hacc => by
      have hrest : ∀ p ∈ rest, p.1 = name → p.2.dynamic = true ∧ p.2.modify_rebuild = false :=
        fun p hp => hents p (List.mem_cons_of_mem _ hp)
      by_cases hn : n = name
      · subst hn
        obtain ⟨da, hda⟩ := Option.isSome_iff_exists.mp hdp
        have hflags : sa.dynamic = true ∧ sa.modify_rebuild = false :=
          hents (n, sa) (List.mem_cons_self _ _) rfl
        simp only [compareSrcLoop, hda]
        by_cases hne : source.get_attribute_value n ≠ destination.get_attribute_value n
        · rw [if_pos hne, if_neg (by simp [hflags.2]), if_pos (by simp [hflags.1])]
          exact compareSrcLoop_no_entry source destination n hdp rest (result, results)
            hrest hacc
        · rw [if_neg hne]
          exact compareSrcLoop_no_entry source destination n hdp rest (result, results)
            hrest hacc
      · have hind :
            ∀ acc2 : StackzillaDiffResult × List (String × StackzillaAttributeDiff),
            PyDict.find? acc2.2 name = Option.none →
            PyDict.find? (compareSrcLoop source destination rest acc2).2 name =
              Option.none :=
          fun acc2 h2 =>
            compareSrcLoop_no_entry source destination name hdp rest acc2 hrest h2
        have hins : ∀ v, PyDict.find? (PyDict.insert results n v) name = Option.none := by
          intro v
          rw [PyDict.find?_insert_ne results n name v hn]
          exact hacc
        cases hfd : PyDict.find? destination.attributes n with
        | none =>
            simp only [compareSrcLoop, hfd]
            exact hind (_, PyDict.insert results n _) (hins _)
        | some da =>
            simp only [compareSrcLoop, hfd]
            by_cases hne : source.get_attribute_value n ≠ destination.get_attribute_value n
            · rw [if_pos hne]
              by_cases hmr : sa.modify_rebuild = true
              · rw [if_pos hmr]
                exact hind (_, PyDict.insert results n _) (hins _)
              · rw [if_neg hmr]
                by_cases hdy : sa.dynamic = true
                · rw [if_pos hdy]
                  exact hind (result, results) hacc
                · rw [if_neg hdy]
                  exact hind (_, PyDict.insert results n _) (hins _)
            · rw [if_neg hne]
              exact hind (result, results) hacc

/-- The destination scan records no entry under a name whose destination
descriptors are all dynamic without rebuild-on-change, provided the source
declares the name. -/
theorem compareDestLoop_no_entry (source destination : ResInstance) (name : String)
    (hsp : (PyDict.find? source.attributes name).isSome) :
    ∀ (entries : List (String × StackzillaAttribute))
      (acc : StackzillaDiffResult × List (String × StackzillaAttributeDiff)),
    (∀ q ∈ entries, q.1 = name → q.2.dynamic = true ∧ q.2.modify_rebuild = false) →
    PyDict.find? acc.2 name = Option.none →
    PyDict.find? (compareDestLoop source destination entries acc).2 name = Option.none
  | [], _, _, hacc => hacc
  | (n, da) :: rest, (result, results), hents, hacc => by
      have hrest : ∀ q ∈ rest, q.1 = name → q.2.dynamic = true ∧ q.2.modify_rebuild = false :=
        fun q hq => hents q (List.mem_cons_of_mem _ hq)
      by_cases hn : n = name
      · subst hn
        obtain ⟨sa, hsa⟩ := Option.isSome_iff_exists.mp hsp
        have hflags : da.dynamic = true ∧ da.modify_rebuild = false :=
          hents (n, da) (List.mem_cons_self _ _) rfl
        have hcont : PyDict.contains results n = false := by
          simp [PyDict.contains, hacc]
        simp only [compareDestLoop, hsa, hcont]
        rw [if_neg (by simp)]
        by_cases hne : source.get_attribute_value n ≠ destination.get_attribute_value n
        · rw [if_pos hne, if_neg (by simp [hflags.2]), if_pos (by simp [hflags.1])]
          exact compareDestLoop_no_entry source destination n hsp rest (result, results)
            hrest hacc
        · rw [if_neg hne]
          exact compareDestLoop_no_entry source destination n hsp rest (result, results)
            hrest hacc
      · have hind :
            ∀ acc2 : StackzillaDiffResult × List (String × StackzillaAttributeDiff),
            PyDict.find? acc2.2 name = Option.none →
            PyDict.find? (compareDestLoop source destination rest acc2).2 name =
              Option.none :=
          fun acc2 h2 =>
            compareDestLoop_no_entry source destination name hsp rest acc2 hrest h2
        have hins : ∀ v, PyDict.find? (PyDict.insert results n v) name = Option.none := by
          intro v
          rw [PyDict.find?_insert_ne results n name v hn]
          exact hacc
        cases hfd : PyDict.find? source.attributes n with
        | none =>
            simp only [compareDestLoop, hfd]
            exact hind (_, PyDict.insert results n _) (hins _)
        | some sa =>
            simp only [compareDestLoop, hfd]
            by_cases hcont : PyDict.contains results n
            · rw [if_pos hcont]
              exact hind (result, results) hacc
            · rw [if_neg hcont]
              by_cases hne : source.get_attribute_value n ≠ destination.get_attribute_value n
              · rw [if_pos hne]
                by_cases hmr : da.modify_rebuild = true
                · rw [if_pos hmr]
                  exact hind (_, PyDict.insert results n _) (hins _)
                · rw [if_neg hmr]
                  by_cases hdy : da.dynamic = true
                  · rw [if_pos hdy]
                    exact hind (result, results) hacc
                  · rw [if_neg hdy]
                    exact hind (_, PyDict.insert results n _) (hins _)
              · rw [if_neg hne]
                exact hind (result, results) hacc

/-- When every scanned source attribute is either equal on both sides or a
dynamic non-rebuild attribute, the source scan leaves the accumulator at
`SAME` with no entries. -/
theorem compareSrcLoop_same (source destination : ResInstance) :
    ∀ (entries : List (String × StackzillaAttribute)),
    (∀ p ∈ entries, (PyDict.find? destination.attributes p.1).isSome ∧
      (source.get_attribute_value p.1 = destination.get_attribute_value p.1 ∨
        (p.2.dynamic = true ∧ p.2.modify_rebuild = false))) →
    compareSrcLoop source destination entries (StackzillaDiffResult.SAME, []) =
      (StackzillaDiffResult.SAME, [])
  | [], _ => rfl
  | (n, sa) :: rest, hents => by
      have hrest := fun p hp => hents p (List.mem_cons_of_mem _ hp)
      have hhead : (PyDict.find? destination.attributes n).isSome = true ∧
          (source.get_attribute_value n = destination.get_attribute_value n ∨
            (sa.dynamic = true ∧ sa.modify_rebuild = false)) :=
        hents (n, sa) (List.mem_cons_self _ _)
      obtain ⟨da, hda⟩ := Option.isSome_iff_exists.mp hhead.1
      simp only [compareSrcLoop, hda]
      rcases hhead.2 with heq | hflags
      · rw [if_neg (by simpa using heq)]
        exact compareSrcLoop_same source destination rest hrest
      · by_cases hne : source.get_attribute_value n ≠ destination.get_attribute_value n
        · rw [if_pos hne, if_neg (by simp [hflags.2]), if_pos (by simp [hflags.1])]
          exact compareSrcLoop_same source destination rest hrest
        · rw [if_neg hne]
          exact compareSrcLoop_same source destination rest hrest

/-- When every scanned destination attribute is declared by the source and
either equal on both sides or a dynamic non-rebuild attribute, the
destination scan leaves the accumulator at `SAME` with no entries. -/
theorem compareDestLoop_same (source destination : ResInstance) :
    ∀ (entries : List (String × StackzillaAttribute)),
    (∀ q ∈ entries, (PyDict.find? source.attributes q.1).isSome ∧
      (source.get_attribute_value q.1 = destination.get_attribute_value q.1 ∨
        (q.2.dynamic = true ∧ q.2.modify_rebuild = false))) →
    compareDestLoop source destination entries (StackzillaDiffResult.SAME, []) =
      (StackzillaDiffResult.SAME, [])
  | [], _ => rfl
  | (n, da) :: rest, hents => by
      have hrest := fun q hq => hents q (List.mem_cons_of_mem _ hq)
      have hhead : (PyDict.find? source.attributes n).isSome = true ∧
          (source.get_attribute_value n = destination.get_attribute_value n ∨
            (da.dynamic = true ∧ da.modify_rebuild = false)) :=
        hents (n, da) (List.mem_cons_self _ _)
      obtain ⟨sa, hsa⟩ := Option.isSome_iff_exists.mp hhead.1
      have hcont : PyDict.contains ([] : List (String × StackzillaAttributeDiff)) n = false :=
        rfl
      simp only [compareDestLoop, hsa, hcont]
      rw [if_neg (by simp)]
      rcases hhead.2 with heq | hflags
      · rw [if_neg (by simpa using heq)]
        exact compareDestLoop_same source destination rest hrest
      · by_cases hne : source.get_attribute_value n ≠ destination.get_attribute_value n
        · rw [if_pos hne, if_neg (by simp [hflags.2]), if_pos (by simp [hflags.1])]
          exact compareDestLoop_same source destination rest hrest
        · rw [if_neg hne]
          exact compareDestLoop_same source destination rest hrest

/-- C1 (counterexample).  The claim states that a differing `dynamic`
attribute is skipped entirely — no attribute-diff entry, no escalation — even
when it also has `rebuildOnChange=true`.  On attribute `a` with
`dynamic=true, modify_rebuild=true` and differing values, `compare_attributes`
instead escalates the resource-level result to `REBUILD_REQUIRED` and records
a `CONFLICT` entry, because the `modify_rebuild` check precedes the `dynamic`
check. -/
theorem claim_C1_counterexample :
    (StackzillaDiff.compare_attributes exDynSrc exDynDest).fst =
      StackzillaDiffResult.REBUILD_REQUIRED ∧
    PyDict.find? (StackzillaDiff.compare_attributes exDynSrc exDynDest).snd "a" =
      some ⟨some (Value.int 1), some (Value.int 2), some exDynRebuildAttr,
        some exDynRebuildAttr, StackzillaDiffResult.CONFLICT⟩ :=
  ⟨rfl, rfl⟩

/-- C1 (amended).  In the attribute comparison used by `diff()`, an attribute
present on both sides whose descriptors have `dynamic=true` *and*
`rebuildOnChange=false` is skipped entirely: no attribute-diff entry is
recorded for it (first conjunct), and when every attribute is either equal on
both sides or such a dynamic attribute, the resource-level result stays
`SAME` — dynamic differences cause no escalation (second conjunct). -/
theorem claim_C1 (source destination : ResInstance) :
    (∀ name : String,
      (PyDict.find? source.attributes name).isSome →
      (PyDict.find? destination.attributes name).isSome →
      (∀ p ∈ source.attributes, p.1 = name →
        p.2.dynamic = true ∧ p.2.modify_rebuild = false) →
      (∀ q ∈ destination.attributes, q.1 = name →
        q.2.dynamic = true ∧ q.2.modify_rebuild = false) →
      PyDict.find? (StackzillaDiff.compare_attributes source destination).snd name =
        Option.none)
    ∧
    ((∀ p ∈ source.attributes, (PyDict.find? destination.attributes p.1).isSome ∧
        (source.get_attribute_value p.1 = destination.get_attribute_value p.1 ∨
          (p.2.dynamic = true ∧ p.2.modify_rebuild = false))) →
     (∀ q ∈ destination.attributes, (PyDict.find? source.attributes q.1).isSome ∧
        (source.get_attribute_value q.1 = destination.get_attribute_value q.1 ∨
          (q.2.dynamic = true ∧ q.2.modify_rebuild = false))) →
     StackzillaDiff.compare_attributes source destination =
       (StackzillaDiffResult.SAME, [])) := by
  constructor
  · intro name hsp hdp hsrc hdest
    unfold StackzillaDiff.compare_attributes
    exact compareDestLoop_no_entry source destination name hsp destination.attributes _
      hdest
      (compareSrcLoop_no_entry source destination name hdp source.attributes
        (StackzillaDiffResult.SAME, []) hsrc rfl)
  · intro hsrc hdest
    unfold StackzillaDiff.compare_attributes
    rw [compareSrcLoop_same source destination source.attributes hsrc]
    exact compareDestLoop_same source destination destination.attributes hdest

/-- C1 (witness).  On a resource whose one attribute `a` is dynamic (without
rebuild-on-change) and differs between the sides, the comparison records no
entry and the result is `SAME`. -/
theorem claim_C1_witness :
    PyDict.find? (StackzillaDiff.compare_attributes exDynOnlySrc exDynOnlyDest).snd "a" =
      Option.none ∧
    StackzillaDiff.compare_attributes exDynOnlySrc exDynOnlyDest =
      (StackzillaDiffResult.SAME, []) :=
  ⟨(claim_C1 exDynOnlySrc exDynOnlyDest).1 "a" (by decide) (by decide) (by decide)
      (by decide),
   (claim_C1 exDynOnlySrc exDynOnlyDest).2 (by decide) (by decide)⟩

/-- C2.  `diff()` on a blueprint whose one resource differs in a
rebuild-on-change attribute succeeds and stores `REBUILD_REQUIRED` as the
*blueprint-level* overall result: the code assigns the attribute-comparison
result directly to the overall result, contradicting both the claim and the
code's own comment on `StackzillaBlueprintDiff.result` ("Valid values are SAME
or CONFLICT"). -/
theorem claim_C2 :
    exRebuildDiff.error = Option.none ∧
    exRebuildDiff.result.map StackzillaBlueprintDiff.result =
      some StackzillaDiffResult.REBUILD_REQUIRED :=
  ⟨rfl, rfl⟩

/-- C4.  `verify()` on a resource whose attribute `a` declares
`types=[int, str]` and holds the integer 5 raises a verification error ("value
of type int not allowed"): the types check demands the runtime type be a
subclass of *every* entry of `types` (adding one error per non-matching
entry), while the claim — and the descriptor docstring "List of types that are
allowed for the attribute" — require membership in the list, under which 5
is valid and `verify()` should return normally. -/
theorem claim_C4 :
    exTypesRes.verify = VerifyOutcome.verifyError
      ⟨"..m.R", [("a", ["value of type <class \x27int\x27> not allowed"])]⟩ :=
  rfl

/-!  Graph-resolver lemmas. -/

/-- Rebuilding the node state preserves the registered objects, in order. -/
theorem mergeFinal_map_obj {β : Type} [DecidableEq β] (nodes : List (GNode β))
    (current : List β) (finalRem : List (GNode β)) :
    (mergeFinal nodes current finalRem).map GNode.obj = nodes.map GNode.obj := by
  unfold mergeFinal
  rw [List.map_map]
  apply List.map_congr_left
  intro n _
  simp only [Function.comp_apply]
  by_cases hc : current.contains n.obj
  · rw [if_pos hc]
  · rw [if_neg hc]
    cases hfd : finalRem.find? (fun m => m.obj == n.obj) with
    | none => rfl
    | some m => simpa using List.find?_some hfd

/-- One `resolve` run preserves the registered objects, in order. -/
theorem resolveAux_map_obj {β : Type} [DecidableEq β] (fuel : Nat)
    (nodes : List (GNode β)) :
    ((resolveAux fuel nodes).snd).map GNode.obj = nodes.map GNode.obj := by
  cases nodes with
  | nil => simp [resolveAux]
  | cons n ns =>
      cases fuel with
      | zero => simp [resolveAux]
      | succ f =>
          simp only [resolveAux]
          split
          · next h =>
              rw [List.isEmpty_iff] at h
              rw [h]
              simp [GNode.stripDeps, List.filter_eq_self]
          · next h =>
              split
              · next phases finalRem heq => exact mergeFinal_map_obj _ _ _
              · next stuck finalRem heq => exact mergeFinal_map_obj _ _ _

/-- After a successful `resolve`, every registered node's caller-supplied
dependency list has been emptied in place. -/
theorem resolveAux_ok_deps {β : Type} [DecidableEq β] :
    ∀ (fuel : Nat) (nodes : List (GNode β)) (phases : List (List β))
      (final : List (GNode β)),
    (nodes.map GNode.obj).Nodup →
    resolveAux fuel nodes = (Except.ok phases, final) →
    ∀ n ∈ final, n.dependencies = []
  | fuel, [], phases, final, _, heq => by
      simp only [resolveAux, Prod.mk.injEq] at heq
      intro n hn
      rw [← heq.2] at hn
      simp at hn
  | 0, m :: ns, phases, final, _, heq => by
      simp only [resolveAux] at heq
      exact absurd (congrArg Prod.fst heq) (by simp)
  | Nat.succ f, m :: ns, phases, final, hnodup, heq => by
      simp only [resolveAux] at heq
      revert heq
      split
      · intro heq
        exact absurd (congrArg Prod.fst heq) (by simp)
      · next hne =>
          split
          · next rp rf hrec =>
              intro heq
              have hfinal : final = mergeFinal (m :: ns) _ rf :=
                (congrArg Prod.snd heq).symm
              intro n hn
              rw [hfinal] at hn
              unfold mergeFinal at hn
              obtain ⟨n0, hn0, hmap⟩ := List.mem_map.mp hn
              by_cases hc :
                  (((m :: ns).filter (fun x => x.dependencies.isEmpty)).map GNode.obj).contains
                    n0.obj
              · rw [if_pos hc] at hmap
                subst hmap
                have hmem : n0.obj ∈
                    ((m :: ns).filter (fun x => x.dependencies.isEmpty)).map GNode.obj := by
                  simpa using hc
                obtain ⟨m0, hm0, hm0obj⟩ := List.mem_map.mp hmem
                have hm0mem := List.mem_of_mem_filter hm0
                have hm0deps : m0.dependencies.isEmpty := (List.mem_filter.mp hm0).2
                have : m0 = n0 :=
                  List.inj_on_of_nodup_map hnodup hm0mem hn0 hm0obj
                rw [← this]
                exact List.isEmpty_iff.mp hm0deps
              · rw [if_neg hc] at hmap
                have hsub : ((((m :: ns).filter
                    (fun x => !(((m :: ns).filter
                      (fun y => y.dependencies.isEmpty)).map GNode.obj).contains x.obj)).map
                    (GNode.stripDeps (((m :: ns).filter
                      (fun y => y.dependencies.isEmpty)).map GNode.obj))).map GNode.obj).Nodup := by
                  have h1 : (((m :: ns).filter
                      (fun x => !(((m :: ns).filter
                        (fun y => y.dependencies.isEmpty)).map GNode.obj).contains x.obj)).map
                      GNode.obj).Nodup :=
                    ((List.filter_sublist _).map GNode.obj).nodup hnodup
                  simpa [GNode.stripDeps, Function.comp] using h1
                cases hfd : rf.find? (fun x => x.obj == n0.obj) with
                | some mx =>
                    simp only [hfd] at hmap
                    rw [← hmap]
                    exact resolveAux_ok_deps f _ rp rf hsub hrec mx
                      (List.mem_of_find?_eq_some hfd)
                | none =>
                    exfalso
                    have hobjs : rf.map GNode.obj = _ :=
                      (congrArg (fun p => p.snd.map GNode.obj) hrec).symm.trans
                        (resolveAux_map_obj f _)
                    have hn0rem : n0 ∈ (m :: ns).filter
                        (fun x => !(((m :: ns).filter
                          (fun y => y.dependencies.isEmpty)).map GNode.obj).contains x.obj) :=
                      List.mem_filter.mpr ⟨hn0, by simpa using hc⟩
                    have hn0obj : n0.obj ∈ rf.map GNode.obj := by
                      rw [hobjs]
                      simp only [List.map_map]
                      exact List.mem_map.mpr ⟨n0, hn0rem, rfl⟩
                    obtain ⟨mx, hmx, hmxobj⟩ := List.mem_map.mp hn0obj
                    have := List.find?_eq_none.mp hfd mx hmx
                    simp [hmxobj] at this
          · next stuck rf hrec =>
              intro heq
              exact absurd (congrArg Prod.fst heq) (by simp)

/-- A graph whose nodes all have empty dependency lists resolves to a single
phase holding every node, leaving the state unchanged. -/
theorem resolveAux_all_empty {β : Type} [DecidableEq β] (fuel : Nat)
    (nodes : List (GNode β)) (hne : nodes ≠ [])
    (hdeps : ∀ n ∈ nodes, n.dependencies = []) :
    resolveAux (fuel + 1) nodes = (Except.ok [nodes.map GNode.obj], nodes) := by
  obtain ⟨m, ns, rfl⟩ := List.exists_cons_of_ne_nil hne
  have hfilter : (m :: ns).filter (fun x => x.dependencies.isEmpty) = m :: ns :=
    List.filter_eq_self.mpr (fun a ha => by simp [hdeps a ha])
  have hrem : (m :: ns).filter
      (fun x => !(((m :: ns).filter (fun y => y.dependencies.isEmpty)).map
        GNode.obj).contains x.obj) = [] := by
    rw [List.filter_eq_nil_iff]
    intro a ha
    rw [hfilter]
    simp only [Bool.not_eq_true', Bool.not_eq_false]
    exact List.elem_iff.mpr (List.mem_map.mpr ⟨a, ha, rfl⟩)
  simp only [resolveAux, hrem, List.map_nil]
  rw [if_neg (by rw [hfilter]; simp)]
  rw [hfilter]
  have hmerge : mergeFinal (m :: ns) ((m :: ns).map GNode.obj) ([] : List (GNode β)) =
      m :: ns := by
    unfold mergeFinal
    have : ∀ n ∈ m :: ns,
        (if ((m :: ns).map GNode.obj).contains n.obj then n
         else match ([] : List (GNode β)).find? (fun x => x.obj == n.obj) with
              | some mx => mx
              | Option.none => n) = n := by
      intro n _
      by_cases hc : ((m :: ns).map GNode.obj).contains n.obj
      · rw [if_pos hc]
      · rw [if_neg hc]
        rfl
    calc (m :: ns).map _ = (m :: ns).map id := List.map_congr_left (by simpa using this)
      _ = m :: ns := List.map_id _
  rw [hmerge]

/-- C3 (counterexample).  The claim states that `resolve()` leaves the
caller-supplied dependency lists unchanged and that two successive `resolve()`
calls return equal phase lists.  On the chain 1→2→3, the first `resolve()`
empties every dependency list in place (the node dictionary is only shallow
copied), and a second `resolve()` on the resulting state returns a single
phase `[[1, 2, 3]]` instead of `[[3], [2], [1]]`. -/
theorem claim_C3_counterexample :
    (Graph.resolve exChain false).snd ≠ exChain ∧
    (Graph.resolve ((Graph.resolve exChain false).snd) false).fst ≠
      (Graph.resolve exChain false).fst := by
  exact ⟨by decide, by decide⟩

/-- C3 (amended).  `resolve()` leaves the registered node set unchanged
(first conjunct), but mutates the caller-supplied dependency lists in place:
after a successful `resolve()` every registered node's dependency list is
empty (second conjunct), so a second `resolve()` on the same graph returns all
nodes in one single phase (third conjunct) — not the original phase list,
whenever that had more than one phase. -/
theorem claim_C3 :
    (∀ (nodes : List (GNode Nat)) (rev : Bool),
      ((Graph.resolve nodes rev).snd).map GNode.obj = nodes.map GNode.obj)
    ∧
    (∀ (nodes : List (GNode Nat)) (rev : Bool) (phases : List (List Nat))
      (final : List (GNode Nat)),
      (nodes.map GNode.obj).Nodup →
      Graph.resolve nodes rev = (Except.ok phases, final) →
      ∀ n ∈ final, n.dependencies = [])
    ∧
    (∀ nodes : List (GNode Nat), nodes ≠ [] →
      (∀ n ∈ nodes, n.dependencies = []) →
      Graph.resolve nodes false = (Except.ok [nodes.map GNode.obj], nodes)) := by
  refine ⟨?_, ?_, ?_⟩
  · intro nodes rev
    unfold Graph.resolve
    cases hrec : resolveAux nodes.length nodes with
    | mk r final =>
        cases r with
        | ok phases =>
            simpa using (congrArg (fun p => p.snd.map GNode.obj) hrec).symm.trans
              (resolveAux_map_obj nodes.length nodes)
        | error stuck =>
            simpa using (congrArg (fun p => p.snd.map GNode.obj) hrec).symm.trans
              (resolveAux_map_obj nodes.length nodes)
  · intro nodes rev phases final hnodup heq
    unfold Graph.resolve at heq
    revert heq
    cases hrec : resolveAux nodes.length nodes with
    | mk r final2 =>
        cases r with
        | ok phases2 =>
            intro heq
            have hfin : final2 = final := congrArg Prod.snd heq
            exact fun n hn =>
              resolveAux_ok_deps nodes.length nodes phases2 final hnodup
                (hfin ▸ hrec) n hn
        | error stuck =>
            intro heq
            exact absurd (congrArg Prod.fst heq) (by simp)
  · intro nodes hne hdeps
    obtain ⟨m, ns, rfl⟩ := List.exists_cons_of_ne_nil hne
    unfold Graph.resolve
    rw [show (m :: ns).length = ns.length + 1 from rfl,
      resolveAux_all_empty ns.length (m :: ns) (by simp) hdeps]
    rfl

/-- C3 (witness).  The amended statement at concrete graphs: the chain's node
set is preserved, its dependency lists end empty after the first `resolve()`,
and a two-node dependency-free graph resolves to one phase unchanged. -/
theorem claim_C3_witness :
    ((Graph.resolve exChain false).snd).map GNode.obj = exChain.map GNode.obj ∧
    (∀ n ∈ (Graph.resolve exChain false).snd, n.dependencies = []) ∧
    Graph.resolve [(⟨1, []⟩ : GNode Nat), ⟨2, []⟩] false =
      (Except.ok [[1, 2]], [⟨1, []⟩, ⟨2, []⟩]) :=
  ⟨claim_C3.1 exChain false,
   fun n hn =>
     claim_C3.2.1 exChain false [[3], [2], [1]] [⟨1, []⟩, ⟨2, []⟩, ⟨3, []⟩]
       (by decide) (by decide) n hn,
   claim_C3.2.2 [⟨1, []⟩, ⟨2, []⟩] (by decide) (by decide)⟩

/-- C8.  For the three-node chain 1→2→3 (1 depends on 2, 2 depends on 3),
`resolve(reverse=false)` returns the phases `[[3], [2], [1]]` and
`resolve(reverse=true)` returns `[[1], [2], [3]]`; in general the `reverse`
flag returns exactly the reversal of the phase list computed without it (and
the same cycle error when resolution fails). -/
theorem claim_C8 :
    (Graph.resolve exChain false).fst = Except.ok [[3], [2], [1]] ∧
    (Graph.resolve exChain true).fst = Except.ok [[1], [2], [3]] ∧
    ∀ nodes : List (GNode Nat),
      (Graph.resolve nodes true).fst =
        (match (Graph.resolve nodes false).fst with
          | Except.ok phases => Except.ok phases.reverse
          | Except.error stuck => Except.error stuck) := by
  refine ⟨rfl, rfl, ?_⟩
  intro nodes
  unfold Graph.resolve
  cases resolveAux nodes.length nodes with
  | mk r final =>
      cases r with
      | ok phases => rfl
      | error stuck => rfl

/-- C7 (counterexample).  The claim states that whenever a resource in phase
`i` records an accumulated error, `apply()` raises `ApplyErrors`.  In the
first run, `..m.r1` records a create error, but `..m.r2` (same phase) then
hits an unhandled attribute modification, so `apply()` raises
`UnhandledAttributeModifications` instead of `ApplyErrors`.  The second run —
identical except that `..m.r2`'s attribute has a handler — shows the create
error was indeed recorded: there `apply()` raises `ApplyErrors` carrying
it. -/
theorem claim_C7_counterexample :
    (StackzillaDiff.apply exUnhandledSrc [] exUnhandledBp exApplyDB).fst =
      some (ApplyException.unhandledAttributeModifications
        [⟨"a", Value.int 1, Value.int 2, false, Option.none⟩]) ∧
    (StackzillaDiff.apply exHandledSrc [] exHandledBp exApplyDB).fst =
      some (ApplyException.applyErrors ["..m.r1: boom"]) :=
  ⟨rfl, rfl⟩

/-- C7 (amended).  If a phase completes without an escaping exception and has
accumulated errors, `apply()` raises `ApplyErrors` carrying exactly those
errors and never touches any later phase (first conjunct; the result does not
depend on `rest`); a phase that completes with no errors and no exception
passes control to the next phase (second conjunct).  An
`UnhandledAttributeModifications` (or other escaping exception) raised inside
the phase preempts the `ApplyErrors`. -/
theorem claim_C7 (src_resources : List (String × ResourceClass))
    (bpdiff : StackzillaBlueprintDiff) (phase : List String)
    (rest : List (List String)) (db db2 : Database) (errors2 : List String) :
    (processPhase src_resources bpdiff phase db [] = (db2, errors2, Option.none) →
      errors2 ≠ [] →
      applyPhases src_resources bpdiff (phase :: rest) db [] =
        (some (ApplyException.applyErrors errors2), db2))
    ∧
    (processPhase src_resources bpdiff phase db [] = (db2, errors2, Option.none) →
      errors2 = [] →
      applyPhases src_resources bpdiff (phase :: rest) db [] =
        applyPhases src_resources bpdiff rest db2 []) := by
  constructor
  · intro hp herr
    simp only [applyPhases, hp]
    rw [if_neg (by simpa using herr)]
  · intro hp herr
    subst herr
    simp only [applyPhases, hp]
    rfl

/-- C7 (witness).  The handled-conflict phase accumulates the create error of
`..m.r1`; with an arbitrary later phase appended, the walk stops with
`ApplyErrors` after phase 1, the later phase untouched. -/
theorem claim_C7_witness :
    applyPhases exHandledSrc exHandledBp [["..m.r1", "..m.r2"], ["..m.r3"]]
      exApplyDB [] =
      (some (ApplyException.applyErrors ["..m.r1: boom"]),
        ⟨[("..m.r2", ⟨[("a", Value.int 2)], exVer⟩)]⟩) :=
  (claim_C7 exHandledSrc exHandledBp ["..m.r1", "..m.r2"] [["..m.r3"]]
      exApplyDB ⟨[("..m.r2", ⟨[("a", Value.int 2)], exVer⟩)]⟩
      ["..m.r1: boom"]).1 rfl (by decide)

/-!  Apply-orchestrator lemmas for the CONFLICT branch. -/

/-- `PyDict.modify` at the modified key. -/
theorem PyDict.find?_modify_self {γ : Type} (m : List (String × γ)) (k : String)
    (f : γ → γ) : PyDict.find? (PyDict.modify m k f) k = (PyDict.find? m k).map f := by
  induction m with
  | nil => rfl
  | cons hd tl ih =>
      obtain ⟨k0, v0⟩ := hd
      by_cases h0 : k0 = k
      · simp [PyDict.modify, PyDict.find?, h0]
      · simp [PyDict.modify, PyDict.find?, h0, ih]

/-- `PyDict.modify` leaves other keys' lookups unchanged. -/
theorem PyDict.find?_modify_ne {γ : Type} (m : List (String × γ)) (k n : String)
    (f : γ → γ) (h : k ≠ n) : PyDict.find? (PyDict.modify m k f) n = PyDict.find? m n := by
  induction m with
  | nil => rfl
  | cons hd tl ih =>
      obtain ⟨k0, v0⟩ := hd
      by_cases h0 : k0 = k
      · subst h0
        simp [PyDict.modify, PyDict.find?, h]
      · simp only [PyDict.modify, if_neg h0]
        by_cases h1 : k0 = n
        · simp [PyDict.find?, h1]
        · simp [PyDict.find?, h1, ih]

/-- `PyDict.modify` preserves the key list. -/
theorem PyDict.keys_modify {γ : Type} (m : List (String × γ)) (k : String) (f : γ → γ) :
    PyDict.keys (PyDict.modify m k f) = PyDict.keys m := by
  induction m with
  | nil => rfl
  | cons hd tl ih =>
      obtain ⟨k0, v0⟩ := hd
      by_cases h0 : k0 = k
      · simp [PyDict.modify, PyDict.keys, h0]
      · simp only [PyDict.modify, if_neg h0, PyDict.keys, List.map_cons, List.cons.injEq,
          true_and]
        exact ih

/-- With unique keys, a member entry is what lookup returns. -/
theorem PyDict.find?_eq_of_mem_nodup {γ : Type} {m : List (String × γ)}
    {k : String} {v : γ} (hnodup : (PyDict.keys m).Nodup) (hmem : (k, v) ∈ m) :
    PyDict.find? m k = some v := by
  induction m with
  | nil => simp at hmem
  | cons hd tl ih =>
      obtain ⟨k0, v0⟩ := hd
      simp only [PyDict.keys, List.map_cons, List.nodup_cons] at hnodup
      rcases List.mem_cons.mp hmem with h1 | h1
      · obtain ⟨hk, hv⟩ := Prod.mk.injEq .. ▸ h1
        simp [PyDict.find?, hk.symm, hv]
      · have hk0 : k0 ≠ k := by
          intro hcc
          subst hcc
          exact hnodup.1 (List.mem_map.mpr ⟨(k0, v), h1, rfl⟩)
        simp [PyDict.find?, hk0, ih hnodup.2 h1]

/-- Folding fresh-key insertions appends the mapped entries, in order. -/
theorem PyDict.foldl_insert_fresh {γ δ : Type} (f : String × δ → γ) :
    ∀ (l : List (String × δ)) (acc : List (String × γ)),
    ((l.map Prod.fst).Nodup) → (∀ p ∈ l, p.1 ∉ PyDict.keys acc) →
    l.foldl (fun a p => PyDict.insert a p.1 (f p)) acc =
      acc ++ l.map (fun p => (p.1, f p))
  | [], acc, _, _ => by simp
  | p :: rest, acc, hnodup, hfresh => by
      have hnodup2 : (rest.map Prod.fst).Nodup := by
        simp only [List.map_cons, List.nodup_cons] at hnodup
        exact hnodup.2
      have hfirst : p.1 ∉ rest.map Prod.fst := by
        simp only [List.map_cons, List.nodup_cons] at hnodup
        exact hnodup.1
      simp only [List.foldl_cons]
      rw [PyDict.insert_of_not_mem (f p) (hfresh p (List.mem_cons_self _ _))]
      rw [PyDict.foldl_insert_fresh f rest (acc ++ [(p.1, f p)]) hnodup2
        (by
          intro q hq
          simp only [PyDict.keys, List.map_append, List.mem_append]
          push_neg
          refine ⟨hfresh q (List.mem_cons_of_mem _ hq), ?_⟩
          intro hc
          simp only [List.map_cons, List.map_nil, List.mem_singleton] at hc
          exact hfirst (hc ▸ List.mem_map.mpr ⟨q, hq, rfl⟩))]
      simp

/-- With unique attribute names, the `modified_attrs` dictionary lists one
fresh tracking record per attribute diff, in order. -/
theorem buildModified_eq (ad : List (String × StackzillaAttributeDiff))
    (hnodup : (ad.map Prod.fst).Nodup) :
    buildModified ad = ad.map (fun p =>
      (p.1, ⟨p.1, p.2.dest_value.getD Value.none, p.2.src_value.getD Value.none,
        false, Option.none⟩)) := by
  unfold buildModified
  simpa using PyDict.foldl_insert_fresh
    (fun p => (⟨p.1, p.2.dest_value.getD Value.none, p.2.src_value.getD Value.none,
      false, Option.none⟩ : AttributeModified)) ad [] hnodup
    (by simp [PyDict.keys])

/-- Lookup after the per-attribute handler loop: the record of a name the diff
map mentions is transformed according to its handler; other records are
untouched. -/
theorem runModifyHandlers_find? (cls : ResourceClass) :
    ∀ (ad : List (String × StackzillaAttributeDiff))
      (acc : List (String × AttributeModified)) (n : String),
    (ad.map Prod.fst).Nodup →
    PyDict.find? (runModifyHandlers cls ad acc) n =
      (if n ∈ ad.map Prod.fst then
        (match PyDict.find? cls.modifyHandlers n with
          | Option.none => PyDict.find? acc n
          | some HookOutcome.ok =>
              (PyDict.find? acc n).map (fun m => { m with handled := true })
          | some (HookOutcome.fail r) =>
              (PyDict.find? acc n).map (fun m => { m with error := some r }))
        else PyDict.find? acc n)
  | [], acc, n, _ => by simp [runModifyHandlers]
  | (a, adv) :: rest, acc, n, hnodup => by
      have hnd : (rest.map Prod.fst).Nodup := (List.nodup_cons.mp (by simpa using hnodup)).2
      have hna : a ∉ rest.map Prod.fst := (List.nodup_cons.mp (by simpa using hnodup)).1
      by_cases hn : n = a
      · subst hn
        have hnotin : n ∉ rest.map Prod.fst := hna
        cases hh : PyDict.find? cls.modifyHandlers n with
        | none =>
            simp only [runModifyHandlers, hh]
            rw [runModifyHandlers_find? cls rest acc n hnd, if_neg hnotin]
            simp [hh, List.mem_cons]
        | some hk =>
            cases hk with
            | ok =>
                simp only [runModifyHandlers, hh]
                rw [runModifyHandlers_find? cls rest _ n hnd, if_neg hnotin,
                  PyDict.find?_modify_self]
                simp [hh, List.mem_cons]
            | fail r =>
                simp only [runModifyHandlers, hh]
                rw [runModifyHandlers_find? cls rest _ n hnd, if_neg hnotin,
                  PyDict.find?_modify_self]
                simp [hh, List.mem_cons]
      · have hmem : (n ∈ (a, adv).1 :: rest.map Prod.fst) ↔ n ∈ rest.map Prod.fst := by
          simp [hn]
        cases hh : PyDict.find? cls.modifyHandlers a with
        | none =>
            simp only [runModifyHandlers, hh]
            rw [runModifyHandlers_find? cls rest acc n hnd]
            by_cases hin : n ∈ rest.map Prod.fst <;>
              simp [hin, hn, List.mem_cons]
        | some hk =>
            cases hk with
            | ok =>
                simp only [runModifyHandlers, hh]
                rw [runModifyHandlers_find? cls rest _ n hnd,
                  PyDict.find?_modify_ne _ a n _ (fun hc => hn hc.symm)]
                by_cases hin : n ∈ rest.map Prod.fst <;>
                  simp [hin, hn, List.mem_cons]
            | fail r =>
                simp only [runModifyHandlers, hh]
                rw [runModifyHandlers_find? cls rest _ n hnd,
                  PyDict.find?_modify_ne _ a n _ (fun hc => hn hc.symm)]
                by_cases hin : n ∈ rest.map Prod.fst <;>
                  simp [hin, hn, List.mem_cons]

/-- Lookup after a fold of handled-marking modifications. -/
theorem foldl_modify_handled (claims : List String) :
    ∀ (acc : List (String × AttributeModified)) (n : String),
    PyDict.find? (claims.foldl
      (fun a c => PyDict.modify a c (fun m => { m with handled := true })) acc) n =
      (if n ∈ claims then
        (PyDict.find? acc n).map (fun m => { m with handled := true })
      else PyDict.find? acc n) := by
  induction claims with
  | nil => intro acc n; simp
  | cons c rest ih =>
      intro acc n
      simp only [List.foldl_cons]
      rw [ih]
      by_cases hn : n = c
      · subst hn
        rw [if_pos (List.mem_cons_self _ _), PyDict.find?_modify_self]
        by_cases hin : n ∈ rest
        · rw [if_pos hin, Option.map_map]
          congr 1
        · rw [if_neg hin]
      · rw [PyDict.find?_modify_ne _ c n _ (fun hc => hn hc.symm)]
        by_cases hin : n ∈ rest <;> simp [hin, hn, List.mem_cons]

/-- Lookup after the aggregate hook. -/
theorem runAggregateHook_find? (cls : ResourceClass)
    (acc : List (String × AttributeModified)) (n : String) :
    PyDict.find? (runAggregateHook cls acc) n =
      (if n ∈ cls.aggregateClaims then
        (PyDict.find? acc n).map (fun m => { m with handled := true })
      else PyDict.find? acc n) :=
  foldl_modify_handled cls.aggregateClaims acc n

/-- The handler loop preserves the key list. -/
theorem keys_runModifyHandlers (cls : ResourceClass) :
    ∀ (ad : List (String × StackzillaAttributeDiff))
      (acc : List (String × AttributeModified)),
    PyDict.keys (runModifyHandlers cls ad acc) = PyDict.keys acc
  | [], _ => rfl
  | (a, adv) :: rest, acc => by
      cases hh : PyDict.find? cls.modifyHandlers a with
      | none =>
          simp only [runModifyHandlers, hh]
          exact keys_runModifyHandlers cls rest acc
      | some hk =>
          cases hk with
          | ok =>
              simp only [runModifyHandlers, hh]
              rw [keys_runModifyHandlers cls rest _, PyDict.keys_modify]
          | fail r =>
              simp only [runModifyHandlers, hh]
              rw [keys_runModifyHandlers cls rest _, PyDict.keys_modify]

/-- The aggregate hook preserves the key list. -/
theorem keys_runAggregateHook (cls : ResourceClass)
    (acc : List (String × AttributeModified)) :
    PyDict.keys (runAggregateHook cls acc) = PyDict.keys acc := by
  unfold runAggregateHook
  generalize cls.aggregateClaims = claims
  induction claims generalizing acc with
  | nil => rfl
  | cons c rest ih =>
      simp only [List.foldl_cons]
      rw [ih, PyDict.keys_modify]

/-- An updated attribute reads back as updated (when the resource is
present). -/
theorem findAttr_update_self (db : Database) (p k : String) (v : Value)
    (h : (PyDict.find? db.resources p).isSome) :
    findAttr (db.update_attribute p k v) p k = some v := by
  obtain ⟨dbr, hdbr⟩ := Option.isSome_iff_exists.mp h
  unfold Database.update_attribute findAttr
  simp [hdbr, PyDict.find?_insert_self]

/-- Updating one attribute leaves the others' stored values unchanged. -/
theorem findAttr_update_ne (db : Database) (p k n : String) (v : Value)
    (hkn : k ≠ n) :
    findAttr (db.update_attribute p k v) p n = findAttr db p n := by
  unfold Database.update_attribute findAttr
  cases hdbr : PyDict.find? db.resources p with
  | none => simp [hdbr]
  | some dbr =>
      simp [hdbr, PyDict.find?_insert_self, PyDict.find?_insert_ne _ k n _ hkn]

/-- Updating an attribute preserves the resource's presence. -/
theorem update_attribute_isSome (db : Database) (p k : String) (v : Value) :
    (PyDict.find? (db.update_attribute p k v).resources p).isSome =
      (PyDict.find? db.resources p).isSome := by
  unfold Database.update_attribute
  cases hdbr : PyDict.find? db.resources p with
  | none => simp [hdbr]
  | some dbr => simp [hdbr, PyDict.find?_insert_self]

/-- Whenever some scanned attribute is unhandled (no error recorded and not
marked handled), the final walk ends with a non-empty unhandled list. -/
theorem conflictFinishLoop_unh (cls : ResourceClass) :
    ∀ (es : List (String × AttributeModified)) (db : Database) (errors : List String)
      (unh : List AttributeModified),
    ((∃ q ∈ es, q.2.error = Option.none ∧ q.2.handled = false) ∨ unh ≠ []) →
    (conflictFinishLoop cls es db errors unh).2.2 ≠ []
  | [], db, errors, unh, h => by
      rcases h with ⟨q, hq, _⟩ | h
      · simp at hq
      · simpa [conflictFinishLoop] using h
  | (k, m) :: rest, db, errors, unh, h => by
      cases herr : m.error with
      | some r =>
          simp only [conflictFinishLoop, herr]
          apply conflictFinishLoop_unh
          rcases h with ⟨q, hq, hq2⟩ | h
          · rcases List.mem_cons.mp hq with rfl | hq3
            · rw [herr] at hq2
              exact absurd hq2.1 (by simp)
            · exact Or.inl ⟨q, hq3, hq2⟩
          · exact Or.inr h
      | none =>
          by_cases hh : m.handled = false
          · simp only [conflictFinishLoop, herr, if_pos hh]
            apply conflictFinishLoop_unh
            exact Or.inr (by simp)
          · simp only [conflictFinishLoop, herr, if_neg hh]
            apply conflictFinishLoop_unh
            rcases h with ⟨q, hq, hq2⟩ | h
            · rcases List.mem_cons.mp hq with rfl | hq3
              · exact absurd hq2.2 hh
              · exact Or.inl ⟨q, hq3, hq2⟩
            · exact Or.inr h

/-- Stored-value tracking through the final attribute walk: an attribute the
scan does not mention keeps its stored value; a mentioned attribute ends
updated to its new value exactly when its record is handled without error. -/
theorem conflictFinishLoop_findAttr (cls : ResourceClass) (n : String) :
    ∀ (es : List (String × AttributeModified)) (db : Database) (errors : List String)
      (unh : List AttributeModified),
    (∀ q ∈ es, q.2.name = q.1) →
    (es.map Prod.fst).Nodup →
    (PyDict.find? db.resources cls.path).isSome →
    ((PyDict.find? es n = Option.none →
        findAttr (conflictFinishLoop cls es db errors unh).1 cls.path n =
          findAttr db cls.path n) ∧
      (∀ m, PyDict.find? es n = some m →
        ((m.error = Option.none ∧ m.handled = true) →
          findAttr (conflictFinishLoop cls es db errors unh).1 cls.path n =
            some m.new_value) ∧
        (¬(m.error = Option.none ∧ m.handled = true) →
          findAttr (conflictFinishLoop cls es db errors unh).1 cls.path n =
            findAttr db cls.path n)))
  | [], db, errors, unh, _, _, _ => by
      refine ⟨fun _ => rfl, fun m hm => ?_⟩
      simp [PyDict.find?] at hm
  | (k, m0) :: rest, db, errors, unh, hnames, hnodup, hpres => by
      have hname0 : m0.name = k := hnames (k, m0) (List.mem_cons_self _ _)
      have hnames2 : ∀ q ∈ rest, q.2.name = q.1 :=
        fun q hq => hnames q (List.mem_cons_of_mem _ hq)
      have hnodup2 : (rest.map Prod.fst).Nodup := by
        simp only [List.map_cons, List.nodup_cons] at hnodup
        exact hnodup.2
      have hkrest : k ∉ rest.map Prod.fst := by
        simp only [List.map_cons, List.nodup_cons] at hnodup
        exact hnodup.1
      cases herr : m0.error with
      | some r =>
          simp only [conflictFinishLoop, herr]
          have ih := conflictFinishLoop_findAttr cls n rest db
            (errors ++ [pathDisplay cls.path ++ ": " ++ m0.name ++ " - " ++ r ++ " "])
            unh hnames2 hnodup2 hpres
          constructor
          · intro hfd
            simp only [PyDict.find?] at hfd
            by_cases hk : k = n
            · rw [if_pos hk] at hfd
              exact absurd hfd (by simp)
            · rw [if_neg hk] at hfd
              exact ih.1 hfd
          · intro m hm
            simp only [PyDict.find?] at hm
            by_cases hk : k = n
            · rw [if_pos hk] at hm
              obtain rfl : m0 = m := Option.some.inj hm
              refine ⟨fun hc => absurd hc.1 (by simp [herr]), fun _ => ?_⟩
              have hrn : PyDict.find? rest n = Option.none :=
                (PyDict.find?_eq_none_iff rest n).mpr (hk ▸ hkrest)
              exact ih.1 hrn
            · rw [if_neg hk] at hm
              exact ih.2 m hm
      | none =>
          by_cases hh : m0.handled = false
          · simp only [conflictFinishLoop, herr, if_pos hh]
            have ih := conflictFinishLoop_findAttr cls n rest db errors (unh ++ [m0])
              hnames2 hnodup2 hpres
            constructor
            · intro hfd
              simp only [PyDict.find?] at hfd
              by_cases hk : k = n
              · rw [if_pos hk] at hfd
                exact absurd hfd (by simp)
              · rw [if_neg hk] at hfd
                exact ih.1 hfd
            · intro m hm
              simp only [PyDict.find?] at hm
              by_cases hk : k = n
              · rw [if_pos hk] at hm
                obtain rfl : m0 = m := Option.some.inj hm
                refine ⟨fun hc => absurd hc.2 (by simp [hh]), fun _ => ?_⟩
                have hrn : PyDict.find? rest n = Option.none :=
                  (PyDict.find?_eq_none_iff rest n).mpr (hk ▸ hkrest)
                exact ih.1 hrn
              · rw [if_neg hk] at hm
                exact ih.2 m hm
          · simp only [conflictFinishLoop, herr, if_neg hh]
            have hpres2 : (PyDict.find?
                (db.update_attribute cls.path m0.name m0.new_value).resources
                cls.path).isSome := by
              rw [update_attribute_isSome]
              exact hpres
            have ih := conflictFinishLoop_findAttr cls n rest
              (db.update_attribute cls.path m0.name m0.new_value) errors unh
              hnames2 hnodup2 hpres2
            constructor
            · intro hfd
              simp only [PyDict.find?] at hfd
              by_cases hk : k = n
              · rw [if_pos hk] at hfd
                exact absurd hfd (by simp)
              · rw [if_neg hk] at hfd
                rw [ih.1 hfd]
                exact findAttr_update_ne db cls.path m0.name n m0.new_value
                  (by rw [hname0]; exact fun hc => hk hc)
            · intro m hm
              simp only [PyDict.find?] at hm
              by_cases hk : k = n
              · rw [if_pos hk] at hm
                obtain rfl : m0 = m := Option.some.inj hm
                have hrn : PyDict.find? rest n = Option.none :=
                  (PyDict.find?_eq_none_iff rest n).mpr (hk ▸ hkrest)
                refine ⟨fun _ => ?_, fun hc => absurd ⟨herr, by simpa using hh⟩ hc⟩
                rw [ih.1 hrn, hname0, hk]
                exact findAttr_update_self db cls.path n m0.new_value hpres
              · rw [if_neg hk] at hm
                have h2 := ih.2 m hm
                rw [findAttr_update_ne db cls.path m0.name n m0.new_value
                  (by rw [hname0]; exact fun hc => hk hc)] at h2
                exact h2

/-- Membership after `PyDict.modify`: an original entry, or the transform of
an original entry under the same key. -/
theorem PyDict.mem_modify {γ : Type} {m : List (String × γ)} {k : String}
    {f : γ → γ} {q : String × γ} (h : q ∈ PyDict.modify m k f) :
    q ∈ m ∨ ∃ v, (q.1, v) ∈ m ∧ q.2 = f v := by
  induction m with
  | nil => simp [PyDict.modify] at h
  | cons hd tl ih =>
      obtain ⟨k0, v0⟩ := hd
      by_cases h0 : k0 = k
      · simp only [PyDict.modify, if_pos h0] at h
        rcases List.mem_cons.mp h with h1 | h1
        · subst h1
          exact Or.inr ⟨v0, List.mem_cons_self _ _, rfl⟩
        · exact Or.inl (List.mem_cons_of_mem _ h1)
      · simp only [PyDict.modify, if_neg h0] at h
        rcases List.mem_cons.mp h with h1 | h1
        · exact Or.inl (by simp [h1])
        · rcases ih h1 with h2 | ⟨v, hv1, hv2⟩
          · exact Or.inl (List.mem_cons_of_mem _ h2)
          · exact Or.inr ⟨v, List.mem_cons_of_mem _ hv1, hv2⟩

/-- Every record of the `modified_attrs` dictionary carries its own key as its
name. -/
theorem buildModified_names (ad : List (String × StackzillaAttributeDiff)) :
    ∀ q ∈ buildModified ad, q.2.name = q.1 := by
  unfold buildModified
  suffices h : ∀ (l : List (String × StackzillaAttributeDiff))
      (acc : List (String × AttributeModified)),
      (∀ q ∈ acc, q.2.name = q.1) →
      ∀ q ∈ l.foldl (fun a p =>
        PyDict.insert a p.1
          ⟨p.1, p.2.dest_value.getD Value.none, p.2.src_value.getD Value.none,
            false, Option.none⟩) acc, q.2.name = q.1 by
    exact h ad [] (by simp)
  intro l
  induction l with
  | nil => intro acc hacc q hq; exact hacc q hq
  | cons p rest ih =>
      intro acc hacc q hq
      refine ih _ ?_ q hq
      intro q2 hq2
      rcases PyDict.mem_insert hq2 with h1 | h1
      · subst h1; rfl
      · exact hacc q2 h1

/-- The per-attribute handler loop never changes a record's name. -/
theorem runModifyHandlers_names (cls : ResourceClass) :
    ∀ (ad : List (String × StackzillaAttributeDiff))
      (acc : List (String × AttributeModified)),
    (∀ q ∈ acc, q.2.name = q.1) →
    ∀ q ∈ runModifyHandlers cls ad acc, q.2.name = q.1
  | [], acc, hacc => hacc
  | (a, adv) :: rest, acc, hacc => by
      cases hh : PyDict.find? cls.modifyHandlers a with
      | none =>
          simp only [runModifyHandlers, hh]
          exact runModifyHandlers_names cls rest acc hacc
      | some hk =>
          cases hk with
          | ok =>
              simp only [runModifyHandlers, hh]
              refine runModifyHandlers_names cls rest _ ?_
              intro q hq
              rcases PyDict.mem_modify hq with h1 | ⟨v, hv1, hv2⟩
              · exact hacc q h1
              · rw [hv2]
                exact hacc (q.1, v) hv1
          | fail r =>
              simp only [runModifyHandlers, hh]
              refine runModifyHandlers_names cls rest _ ?_
              intro q hq
              rcases PyDict.mem_modify hq with h1 | ⟨v, hv1, hv2⟩
              · exact hacc q h1
              · rw [hv2]
                exact hacc (q.1, v) hv1

/-- The aggregate hook never changes a record's name. -/
theorem runAggregateHook_names (cls : ResourceClass)
    (acc : List (String × AttributeModified))
    (hacc : ∀ q ∈ acc, q.2.name = q.1) :
    ∀ q ∈ runAggregateHook cls acc, q.2.name = q.1 := by
  unfold runAggregateHook
  generalize cls.aggregateClaims = claims
  induction claims generalizing acc with
  | nil => exact hacc
  | cons c rest ih =>
      simp only [List.foldl_cons]
      refine ih _ ?_
      intro q hq
      rcases PyDict.mem_modify hq with h1 | ⟨v, hv1, hv2⟩
      · exact hacc q h1
      · rw [hv2]
        exact hacc (q.1, v) hv1

/-- Keys of the fully transformed `modified_attrs` dictionary: exactly the
attribute-diff names, in order. -/
theorem modified2_keys (cls : ResourceClass)
    (ad : List (String × StackzillaAttributeDiff))
    (hnodup : (ad.map Prod.fst).Nodup) :
    PyDict.keys (runAggregateHook cls (runModifyHandlers cls ad (buildModified ad))) =
      ad.map Prod.fst := by
  rw [keys_runAggregateHook, keys_runModifyHandlers, buildModified_eq ad hnodup]
  simp [PyDict.keys]

/-- C6.  During `apply()` of a resource whose diff result is `CONFLICT`, if at
least one changed attribute has no per-attribute modify hook and is not
claimed handled by the aggregate hook, then the resource step raises the
distinct `UnhandledAttributeModifications` failure — not an accumulated
(`ApplyErrors`-style) error (first conjunct); every such unhandled attribute's
new value is not persisted to the store (second conjunct); and every
attribute that was handled without error (a succeeding hook, or no hook but
claimed by the aggregate hook) is persisted with its new value (third
conjunct). -/
theorem claim_C6 (bpdiff : StackzillaBlueprintDiff) (cls : ResourceClass)
    (db : Database) (errors : List String) (d : StackzillaResourceDiff)
    (hload : cls.load_from_db db ≠ Except.error LoadErr.attributeNotFound)
    (hd : PyDict.find? bpdiff.resource_diffs cls.path = some d)
    (hres : d.result = StackzillaDiffResult.CONFLICT)
    (hnodup : (d.attribute_diffs.map Prod.fst).Nodup)
    (hdbres : (PyDict.find? db.resources cls.path).isSome)
    (hunh : ∃ p ∈ d.attribute_diffs,
      PyDict.find? cls.modifyHandlers p.1 = Option.none ∧ p.1 ∉ cls.aggregateClaims) :
    (∃ attrs, (applyResource bpdiff cls db errors).2.2 =
      some (StepExc.unhandled attrs)) ∧
    (∀ p ∈ d.attribute_diffs,
      PyDict.find? cls.modifyHandlers p.1 = Option.none → p.1 ∉ cls.aggregateClaims →
      findAttr (applyResource bpdiff cls db errors).1 cls.path p.1 =
        findAttr db cls.path p.1) ∧
    (∀ p ∈ d.attribute_diffs,
      (PyDict.find? cls.modifyHandlers p.1 = some HookOutcome.ok ∨
        (PyDict.find? cls.modifyHandlers p.1 = Option.none ∧
          p.1 ∈ cls.aggregateClaims)) →
      findAttr (applyResource bpdiff cls db errors).1 cls.path p.1 =
        some (p.2.src_value.getD Value.none)) := by
  have hred : applyResource bpdiff cls db errors =
      processConflict cls d.attribute_diffs db errors := by
    unfold applyResource
    cases hl : cls.load_from_db db with
    | error e =>
        cases e with
        | resourceNotFound => simp [hd, hres]
        | attributeNotFound => exact absurd hl hload
    | ok r => simp [hd, hres]
  rw [hred]
  have hkeysB : PyDict.keys (d.attribute_diffs.map
      (fun p => (p.1, (⟨p.1, p.2.dest_value.getD Value.none,
        p.2.src_value.getD Value.none, false, Option.none⟩ : AttributeModified)))) =
      d.attribute_diffs.map Prod.fst := by
    simp [PyDict.keys]
  have hfb : ∀ p ∈ d.attribute_diffs,
      PyDict.find? (buildModified d.attribute_diffs) p.1 =
        some ⟨p.1, p.2.dest_value.getD Value.none, p.2.src_value.getD Value.none,
          false, Option.none⟩ := by
    intro p hp
    rw [buildModified_eq d.attribute_diffs hnodup]
    exact PyDict.find?_eq_of_mem_nodup (hkeysB ▸ hnodup)
      (List.mem_map.mpr ⟨p, hp, rfl⟩)
  have hfM : ∀ p ∈ d.attribute_diffs,
      (PyDict.find? cls.modifyHandlers p.1 = Option.none →
        p.1 ∉ cls.aggregateClaims →
        PyDict.find? (runAggregateHook cls
          (runModifyHandlers cls d.attribute_diffs (buildModified d.attribute_diffs)))
            p.1 =
          some ⟨p.1, p.2.dest_value.getD Value.none, p.2.src_value.getD Value.none,
            false, Option.none⟩) ∧
      ((PyDict.find? cls.modifyHandlers p.1 = some HookOutcome.ok ∨
          (PyDict.find? cls.modifyHandlers p.1 = Option.none ∧
            p.1 ∈ cls.aggregateClaims)) →
        PyDict.find? (runAggregateHook cls
          (runModifyHandlers cls d.attribute_diffs (buildModified d.attribute_diffs)))
            p.1 =
          some ⟨p.1, p.2.dest_value.getD Value.none, p.2.src_value.getD Value.none,
            true, Option.none⟩) := by
    intro p hp
    have hmem : p.1 ∈ d.attribute_diffs.map Prod.fst := List.mem_map.mpr ⟨p, hp, rfl⟩
    constructor
    · intro hhand hclaims
      rw [runAggregateHook_find?, if_neg hclaims,
        runModifyHandlers_find? cls d.attribute_diffs _ p.1 hnodup, if_pos hmem,
        hhand, hfb p hp]
    · intro hcase
      rcases hcase with hok | ⟨hhand, hclaims⟩
      · rw [runAggregateHook_find?,
          runModifyHandlers_find? cls d.attribute_diffs _ p.1 hnodup, if_pos hmem,
          hok, hfb p hp]
        by_cases hc : p.1 ∈ cls.aggregateClaims
        · rw [if_pos hc]
          rfl
        · rw [if_neg hc]
          rfl
      · rw [runAggregateHook_find?, if_pos hclaims,
          runModifyHandlers_find? cls d.attribute_diffs _ p.1 hnodup, if_pos hmem,
          hhand, hfb p hp]
        rfl
  have hnames : ∀ q ∈ runAggregateHook cls
      (runModifyHandlers cls d.attribute_diffs (buildModified d.attribute_diffs)),
      q.2.name = q.1 :=
    runAggregateHook_names cls _
      (runModifyHandlers_names cls d.attribute_diffs _
        (buildModified_names d.attribute_diffs))
  have hnodupM : (PyDict.keys (runAggregateHook cls
      (runModifyHandlers cls d.attribute_diffs (buildModified d.attribute_diffs)))).Nodup := by
    rw [modified2_keys cls d.attribute_diffs hnodup]
    exact hnodup
  rcases hfl : conflictFinishLoop cls
      (runAggregateHook cls
        (runModifyHandlers cls d.attribute_diffs (buildModified d.attribute_diffs)))
      db errors [] with ⟨db2, errors2, unh⟩
  have hloop := fun n => conflictFinishLoop_findAttr cls n
    (runAggregateHook cls
      (runModifyHandlers cls d.attribute_diffs (buildModified d.attribute_diffs)))
    db errors [] hnames hnodupM hdbres
  have hunh2 : unh ≠ [] := by
    obtain ⟨p, hp, hhand, hclaims⟩ := hunh
    have hfMp := (hfM p hp).1 hhand hclaims
    have := conflictFinishLoop_unh cls
      (runAggregateHook cls
        (runModifyHandlers cls d.attribute_diffs (buildModified d.attribute_diffs)))
      db errors []
      (Or.inl ⟨(p.1, ⟨p.1, p.2.dest_value.getD Value.none,
          p.2.src_value.getD Value.none, false, Option.none⟩),
        PyDict.find?_mem hfMp, rfl, rfl⟩)
    rw [hfl] at this
    exact this
  have hproc : processConflict cls d.attribute_diffs db errors =
      (db2, errors2, some (StepExc.unhandled unh)) := by
    simp only [processConflict]
    rw [hfl]
    rw [if_neg (by simpa using hunh2)]
  rw [hproc]
  refine ⟨⟨unh, rfl⟩, ?_, ?_⟩
  · intro p hp hhand hclaims
    have hfMp := (hfM p hp).1 hhand hclaims
    have h2 := ((hloop p.1).2 _ hfMp).2 (by simp)
    rw [hfl] at h2
    exact h2
  · intro p hp hcase
    have hfMp := (hfM p hp).2 hcase
    have h2 := ((hloop p.1).2 _ hfMp).1 ⟨rfl, rfl⟩
    rw [hfl] at h2
    exact h2

/-- C6 (witness).  In the concrete conflict scenario (`a` unhandled, `b`
handled by its hook, `c` failing its hook, `d` claimed by the aggregate
hook), the step raises `UnhandledAttributeModifications`; `a` keeps its stored
value and `b` and `d` are persisted with their new values. -/
theorem claim_C6_witness :
    (∃ attrs, (applyResource exC6Bp exC6Cls exC6DB []).2.2 =
      some (StepExc.unhandled attrs)) ∧
    findAttr (applyResource exC6Bp exC6Cls exC6DB []).1 "..m.rc" "a" =
      findAttr exC6DB "..m.rc" "a" ∧
    findAttr (applyResource exC6Bp exC6Cls exC6DB []).1 "..m.rc" "b" =
      some (Value.int 20) ∧
    findAttr (applyResource exC6Bp exC6Cls exC6DB []).1 "..m.rc" "d" =
      some (Value.int 40) := by
  have h := claim_C6 exC6Bp exC6Cls exC6DB [] ⟨some exC6Cls, some exC6Cls,
      StackzillaDiffResult.CONFLICT, exC6Diffs⟩
    (by decide) rfl rfl (by decide) (by decide)
    ⟨("a", ⟨some (Value.int 10), some (Value.int 0), some {}, some {},
        StackzillaDiffResult.CONFLICT⟩), by decide, by decide, by decide⟩
  refine ⟨h.1, ?_, ?_, ?_⟩
  · exact h.2.1 ("a", ⟨some (Value.int 10), some (Value.int 0), some {}, some {},
      StackzillaDiffResult.CONFLICT⟩) (by decide) (by decide) (by decide)
  · exact h.2.2 ("b", ⟨some (Value.int 20), some (Value.int 0), some {}, some {},
      StackzillaDiffResult.CONFLICT⟩) (by decide) (Or.inl (by decide))
  · exact h.2.2 ("d", ⟨some (Value.int 40), some (Value.int 0), some {}, some {},
      StackzillaDiffResult.CONFLICT⟩) (by decide) (Or.inr ⟨by decide, by decide⟩)

/-!  Key-rewrite and pruning lemmas for `diff()`. -/

/-- With unique keys, erasing a key is filtering it out. -/
theorem PyDict.erase_eq_filter {γ : Type} :
    ∀ (m : List (String × γ)) (k : String), (PyDict.keys m).Nodup →
    PyDict.erase m k = m.filter (fun kv => !(kv.1 == k))
  | [], k, _ => rfl
  | (k0, v0) :: tl, k, hnodup => by
      have hnodup2 : (PyDict.keys tl).Nodup := by
        simp only [PyDict.keys, List.map_cons, List.nodup_cons] at hnodup
        exact hnodup.2
      have hk0 : k0 ∉ PyDict.keys tl := by
        simp only [PyDict.keys, List.map_cons, List.nodup_cons] at hnodup
        exact hnodup.1
      by_cases h0 : k0 = k
      · subst h0
        have hstep : ((k0, v0) :: tl).filter (fun kv => !(kv.1 == k0)) =
            tl.filter (fun kv => !(kv.1 == k0)) := by
          rw [List.filter_cons, if_neg (by simp)]
        rw [show PyDict.erase ((k0, v0) :: tl) k0 = tl from by simp [PyDict.erase]]
        rw [hstep]
        exact (List.filter_eq_self.mpr (fun kv hkv => by
          have hne : kv.1 ≠ k0 :=
            fun hc => hk0 (hc ▸ List.mem_map.mpr ⟨kv, hkv, rfl⟩)
          simpa using hne)).symm
      · simp only [PyDict.erase, if_neg h0, List.filter_cons]
        rw [if_pos (by simpa using h0)]
        rw [PyDict.erase_eq_filter tl k hnodup2]

/-- Erasing is a sublist. -/
theorem PyDict.erase_sublist {γ : Type} (m : List (String × γ)) (k : String) :
    (PyDict.erase m k).Sublist m := by
  induction m with
  | nil => simp [PyDict.erase]
  | cons hd tl ih =>
      obtain ⟨k0, v0⟩ := hd
      by_cases h0 : k0 = k
      · simp only [PyDict.erase, if_pos h0]
        exact (List.sublist_cons_self _ _)
      · simp only [PyDict.erase, if_neg h0]
        exact List.Sublist.cons₂ _ ih

/-- One step of the in-place key rewrite, over the whole snapshot: with unique
original keys and fresh, unique rewritten keys, the loop moves every entry to
its rewritten key, preserving order and values. -/
theorem rewriteGo (pre : String) :
    ∀ (pending done : List (String × ResourceClass)),
    ((pending.map Prod.fst).Nodup) →
    (∀ k ∈ pending.map Prod.fst, k ∉ done.map Prod.fst) →
    (∀ k ∈ pending.map Prod.fst,
      pyReplace k pre "." ∉ pending.map Prod.fst ∧
      pyReplace k pre "." ∉ done.map Prod.fst) →
    ((pending.map (fun kv => pyReplace kv.1 pre ".")).Nodup) →
    (pending.map Prod.fst).foldl (fun acc resource_name =>
      match PyDict.find? acc resource_name with
      | some v =>
          PyDict.erase (PyDict.insert acc (pyReplace resource_name pre ".") v)
            resource_name
      | Option.none => acc) (pending ++ done) =
      done ++ pending.map (fun kv => (pyReplace kv.1 pre ".", kv.2))
  | [], done, _, _, _, _ => by simp
  | (k, v) :: rest, done, h1, h2, h3, h4 => by
      have h1' : (rest.map Prod.fst).Nodup := by
        simp only [List.map_cons, List.nodup_cons] at h1
        exact h1.2
      have hkrest : k ∉ rest.map Prod.fst := by
        simp only [List.map_cons, List.nodup_cons] at h1
        exact h1.1
      have hrwk := h3 k (by simp)
      have hfind : PyDict.find? ((k, v) :: rest ++ done) k = some v := by
        simp [PyDict.find?]
      have hrwknotin : pyReplace k pre "." ∉ PyDict.keys ((k, v) :: rest ++ done) := by
        simp only [PyDict.keys, List.map_append, List.mem_append, List.map_cons]
        push_neg
        exact ⟨by simpa using hrwk.1, hrwk.2⟩
      have hins : PyDict.insert ((k, v) :: rest ++ done) (pyReplace k pre ".") v =
          (k, v) :: (rest ++ done ++ [(pyReplace k pre ".", v)]) := by
        rw [PyDict.insert_of_not_mem v hrwknotin]
        simp
      have hrwknodup : (rest.map (fun kv => pyReplace kv.1 pre ".")).Nodup := by
        simp only [List.map_cons, List.nodup_cons] at h4
        exact h4.2
      have hrwkhead : pyReplace k pre "." ∉
          rest.map (fun kv => pyReplace kv.1 pre ".") := by
        simp only [List.map_cons, List.nodup_cons] at h4
        exact h4.1
      simp only [List.map_cons, List.foldl_cons, hfind, hins, PyDict.erase, if_pos rfl]
      have hrec := rewriteGo pre rest (done ++ [(pyReplace k pre ".", v)]) h1'
        (by
          intro k2 hk2
          simp only [List.map_append, List.mem_append, List.map_cons, List.map_nil,
            List.mem_singleton]
          push_neg
          refine ⟨h2 k2 (List.mem_cons_of_mem _ hk2), ?_⟩
          intro hc
          exact (hrwk.1) (hc ▸ List.mem_cons_of_mem _ hk2)
        )
        (by
          intro k2 hk2
          have h3k2 := h3 k2 (List.mem_cons_of_mem _ hk2)
          constructor
          · intro hc
            exact h3k2.1 (List.mem_cons_of_mem _ hc)
          · simp only [List.map_append, List.mem_append, List.map_cons, List.map_nil,
              List.mem_singleton]
            push_neg
            refine ⟨h3k2.2, ?_⟩
            intro hc
            obtain ⟨q, hq, hqeq⟩ := List.mem_map.mp hk2
            exact hrwkhead (hc ▸ List.mem_map.mpr ⟨q, hq, by rw [hqeq]⟩)
        )
        hrwknodup
      rw [if_pos trivial, List.append_assoc, hrec]
      simp

/-- The whole in-place key rewrite, under the same freshness conditions. -/
theorem rewriteKeys_eq_map (pre : String) (m : List (String × ResourceClass))
    (h1 : (m.map Prod.fst).Nodup)
    (h3 : ∀ k ∈ m.map Prod.fst, pyReplace k pre "." ∉ m.map Prod.fst)
    (h4 : (m.map (fun kv => pyReplace kv.1 pre ".")).Nodup) :
    rewriteKeys pre m = m.map (fun kv => (pyReplace kv.1 pre ".", kv.2)) := by
  have := rewriteGo pre m [] h1 (by simp) (fun k hk => ⟨h3 k hk, by simp⟩) h4
  simpa [rewriteKeys, PyDict.keys] using this

/-- The destination-pruning loop keeps exactly the loadable entries (when no
load hits `AttributeNotFound`). -/
theorem pruneLoop_filter (db : Database) :
    ∀ (ks : List String) (acc : List (String × ResourceClass)),
    ((acc.map Prod.fst).Nodup) →
    (∀ kv ∈ acc, kv.2.load_from_db db ≠ Except.error LoadErr.attributeNotFound) →
    pruneLoop db ks acc =
      (acc.filter (fun kv => !(decide (kv.1 ∈ ks)) || loadOk db kv.2), Option.none)
  | [], acc, _, _ => by
      simp only [pruneLoop]
      rw [List.filter_eq_self.mpr (fun kv _ => by simp)]
  | k :: rest, acc, hnodup, hloads => by
      cases hfd : PyDict.find? acc k with
      | none =>
          simp only [pruneLoop, hfd]
          rw [pruneLoop_filter db rest acc hnodup hloads]
          congr 1
          apply List.filter_congr
          intro kv hkv
          have hk : kv.1 ≠ k := fun hc =>
            ((PyDict.find?_eq_none_iff acc k).mp hfd)
              (hc ▸ List.mem_map.mpr ⟨kv, hkv, rfl⟩)
          simp [List.mem_cons, hk]
      | some cls =>
          have hmem := PyDict.find?_mem hfd
          cases hload : cls.load_from_db db with
          | ok r =>
              simp only [pruneLoop, hfd, hload]
              rw [pruneLoop_filter db rest acc hnodup hloads]
              congr 1
              apply List.filter_congr
              intro kv hkv
              by_cases hk : kv.1 = k
              · have : kv.2 = cls := by
                  have hv := PyDict.find?_eq_of_mem_nodup hnodup
                    (show (kv.1, kv.2) ∈ acc from hkv)
                  rw [hk, hfd] at hv
                  exact (Option.some.inj hv).symm
                simp [List.mem_cons, hk, loadOk, this, hload]
              · simp [List.mem_cons, hk]
          | error e =>
              cases e with
              | attributeNotFound => exact absurd hload (hloads (k, cls) hmem)
              | resourceNotFound =>
                  simp only [pruneLoop, hfd, hload]
                  have hsub := PyDict.erase_sublist acc k
                  rw [pruneLoop_filter db rest (PyDict.erase acc k)
                    ((hsub.map Prod.fst).nodup hnodup)
                    (fun kv hkv => hloads kv (hsub.mem hkv))]
                  congr 1
                  rw [PyDict.erase_eq_filter acc k hnodup, List.filter_filter]
                  apply List.filter_congr
                  intro kv hkv
                  by_cases hk : kv.1 = k
                  · have : kv.2 = cls := by
                      have hv := PyDict.find?_eq_of_mem_nodup hnodup
                        (show (kv.1, kv.2) ∈ acc from hkv)
                      rw [hk, hfd] at hv
                      exact (Option.some.inj hv).symm
                    simp [List.mem_cons, hk, loadOk, this, hload]
                  · simp [List.mem_cons, hk]

/-- C10.  `diff()` mutates both input blueprints in place: the source's
resource map ends with every key rewritten (`key.replace(diskPre, '.')`,
values untouched, first conjunct), so that no original prefixed key remains
(second conjunct); the destination's resource map ends with its keys likewise
rewritten and every entry whose resource cannot be loaded from the store
deleted (third conjunct), so a dropped destination entry is gone from the
mapping (fourth conjunct).  The hypotheses state that the blueprint keys are
unique, that the rewritten keys are fresh and unique — true of the
`sz_disk_bp.`/`sz_db_bp.`-prefixed keys the importers produce — and that no
destination load fails with `AttributeNotFound`. -/
theorem claim_C10 (db : Database) (diskPre dbPre : String)
    (source destination : List (String × ResourceClass))
    (prev : Option StackzillaBlueprintDiff)
    (hs1 : (source.map Prod.fst).Nodup)
    (hs2 : ∀ k ∈ source.map Prod.fst, pyReplace k diskPre "." ∉ source.map Prod.fst)
    (hs3 : (source.map (fun kv => pyReplace kv.1 diskPre ".")).Nodup)
    (hd1 : (destination.map Prod.fst).Nodup)
    (hd2 : ∀ k ∈ destination.map Prod.fst,
      pyReplace k dbPre "." ∉ destination.map Prod.fst)
    (hd3 : (destination.map (fun kv => pyReplace kv.1 dbPre ".")).Nodup)
    (hload : ∀ kv ∈ destination,
      kv.2.load_from_db db ≠ Except.error LoadErr.attributeNotFound) :
    (StackzillaDiff.diff db diskPre dbPre source destination prev).src_resources =
      source.map (fun kv => (pyReplace kv.1 diskPre ".", kv.2)) ∧
    (∀ k ∈ source.map Prod.fst,
      PyDict.find? (StackzillaDiff.diff db diskPre dbPre source destination
        prev).src_resources k = Option.none) ∧
    (StackzillaDiff.diff db diskPre dbPre source destination prev).dest_resources =
      (destination.map (fun kv => (pyReplace kv.1 dbPre ".", kv.2))).filter
        (fun kv => loadOk db kv.2) ∧
    (∀ kv ∈ destination.map (fun kv => (pyReplace kv.1 dbPre ".", kv.2)),
      loadOk db kv.2 = false →
      PyDict.find? (StackzillaDiff.diff db diskPre dbPre source destination
        prev).dest_resources kv.1 = Option.none) := by
  have hsrc : rewriteKeys diskPre source =
      source.map (fun kv => (pyReplace kv.1 diskPre ".", kv.2)) :=
    rewriteKeys_eq_map diskPre source hs1 hs2 hs3
  have hdest : rewriteKeys dbPre destination =
      destination.map (fun kv => (pyReplace kv.1 dbPre ".", kv.2)) :=
    rewriteKeys_eq_map dbPre destination hd1 hd2 hd3
  have hdestnodup : ((destination.map
      (fun kv => (pyReplace kv.1 dbPre ".", kv.2))).map Prod.fst).Nodup := by
    simpa [Function.comp] using hd3
  have hloads2 : ∀ kv ∈ destination.map (fun kv => (pyReplace kv.1 dbPre ".", kv.2)),
      kv.2.load_from_db db ≠ Except.error LoadErr.attributeNotFound := by
    intro kv hkv
    obtain ⟨q, hq, rfl⟩ := List.mem_map.mp hkv
    exact hload q hq
  have hprune : pruneLoop db (PyDict.keys (rewriteKeys dbPre destination))
      (rewriteKeys dbPre destination) =
      ((destination.map (fun kv => (pyReplace kv.1 dbPre ".", kv.2))).filter
        (fun kv => loadOk db kv.2), Option.none) := by
    rw [hdest]
    rw [pruneLoop_filter db _ _ hdestnodup hloads2]
    congr 1
    apply List.filter_congr
    intro kv hkv
    have : kv.1 ∈ PyDict.keys (destination.map
        (fun kv => (pyReplace kv.1 dbPre ".", kv.2))) :=
      List.mem_map.mpr ⟨kv, hkv, rfl⟩
    simp [this]
  have hout : (StackzillaDiff.diff db diskPre dbPre source destination
        prev).src_resources =
      source.map (fun kv => (pyReplace kv.1 diskPre ".", kv.2)) ∧
      (StackzillaDiff.diff db diskPre dbPre source destination prev).dest_resources =
      (destination.map (fun kv => (pyReplace kv.1 dbPre ".", kv.2))).filter
        (fun kv => loadOk db kv.2) := by
    simp only [StackzillaDiff.diff]
    rw [hprune]
    dsimp only
    cases hp1 : diffPass1 db
        ((destination.map (fun kv => (pyReplace kv.1 dbPre ".", kv.2))).filter
          (fun kv => loadOk db kv.2))
        (rewriteKeys diskPre source) StackzillaDiffResult.SAME [] with
    | error e => exact ⟨hsrc, rfl⟩
    | ok r =>
        obtain ⟨result1, diffs1⟩ := r
        exact ⟨hsrc, rfl⟩
  refine ⟨hout.1, ?_, hout.2, ?_⟩
  · intro k hk
    rw [hout.1]
    rw [PyDict.find?_eq_none_iff]
    intro hc
    simp only [PyDict.keys, List.map_map, Function.comp] at hc
    obtain ⟨q, hq, hqeq⟩ := List.mem_map.mp hc
    refine hs2 q.1 (List.mem_map.mpr ⟨q, hq, rfl⟩) ?_
    have hqeq2 : pyReplace q.1 diskPre "." = k := by simpa using hqeq
    rw [hqeq2]
    exact hk
  · intro kv hkv hnotok
    rw [hout.2]
    rw [PyDict.find?_eq_none_iff]
    intro hc
    simp only [PyDict.keys] at hc
    obtain ⟨q, hq, hqeq⟩ := List.mem_map.mp hc
    have hqm := List.mem_of_mem_filter hq
    have hqok : loadOk db q.2 = true := (List.mem_filter.mp hq).2
    have : PyDict.find? (destination.map (fun kv => (pyReplace kv.1 dbPre ".", kv.2)))
        q.1 = some q.2 :=
      PyDict.find?_eq_of_mem_nodup hdestnodup (by simpa using hqm)
    have hkv2 : PyDict.find? (destination.map
        (fun kv => (pyReplace kv.1 dbPre ".", kv.2))) kv.1 = some kv.2 :=
      PyDict.find?_eq_of_mem_nodup hdestnodup (by simpa using hkv)
    rw [hqeq] at this
    rw [this] at hkv2
    have : q.2 = kv.2 := Option.some.inj hkv2
    rw [this] at hqok
    rw [hqok] at hnotok
    exact absurd hnotok (by simp)

/-- C10 (witness).  On a one-resource source and a one-resource destination
whose store entry is missing, `diff()` leaves the source rekeyed under
`..m.R`, the original disk key gone, and the destination emptied. -/
theorem claim_C10_witness :
    (StackzillaDiff.diff (⟨[]⟩ : Database) "sz_disk_bp" "sz_db_bp"
      [("sz_disk_bp.m.R", exRebuildCls)] [("sz_db_bp.m.R", exRebuildCls)]
      Option.none).src_resources = [("..m.R", exRebuildCls)] ∧
    PyDict.find? (StackzillaDiff.diff (⟨[]⟩ : Database) "sz_disk_bp" "sz_db_bp"
      [("sz_disk_bp.m.R", exRebuildCls)] [("sz_db_bp.m.R", exRebuildCls)]
      Option.none).src_resources "sz_disk_bp.m.R" = Option.none ∧
    (StackzillaDiff.diff (⟨[]⟩ : Database) "sz_disk_bp" "sz_db_bp"
      [("sz_disk_bp.m.R", exRebuildCls)] [("sz_db_bp.m.R", exRebuildCls)]
      Option.none).dest_resources = [] ∧
    PyDict.find? (StackzillaDiff.diff (⟨[]⟩ : Database) "sz_disk_bp" "sz_db_bp"
      [("sz_disk_bp.m.R", exRebuildCls)] [("sz_db_bp.m.R", exRebuildCls)]
      Option.none).dest_resources "..m.R" = Option.none := by
  have h := claim_C10 (⟨[]⟩ : Database) "sz_disk_bp" "sz_db_bp"
    [("sz_disk_bp.m.R", exRebuildCls)] [("sz_db_bp.m.R", exRebuildCls)] Option.none
    (by decide) (by decide) (by decide) (by decide) (by decide) (by decide)
    (by decide)
  refine ⟨?_, ?_, ?_, ?_⟩
  · rw [h.1]
    rfl
  · exact h.2.1 "sz_disk_bp.m.R" (by decide)
  · rw [h.2.2.1]
    rfl
  · exact h.2.2.2 ("..m.R", exRebuildCls) (by decide) (by decide)

/-- The escalation step only produces `CONFLICT` or keeps `REBUILD_REQUIRED`. -/
theorem escalate_valid (r : StackzillaDiffResult) :
    (if r ≠ StackzillaDiffResult.REBUILD_REQUIRED then StackzillaDiffResult.CONFLICT
      else r) = StackzillaDiffResult.SAME ∨
    (if r ≠ StackzillaDiffResult.REBUILD_REQUIRED then StackzillaDiffResult.CONFLICT
      else r) = StackzillaDiffResult.CONFLICT ∨
    (if r ≠ StackzillaDiffResult.REBUILD_REQUIRED then StackzillaDiffResult.CONFLICT
      else r) = StackzillaDiffResult.REBUILD_REQUIRED := by
  by_cases hr : r = StackzillaDiffResult.REBUILD_REQUIRED <;> simp [hr]

/-- The source scan only ever produces `SAME`, `CONFLICT` or
`REBUILD_REQUIRED` as the resource-level result. -/
theorem compareSrcLoop_valid (source destination : ResInstance) :
    ∀ (entries : List (String × StackzillaAttribute))
      (acc : StackzillaDiffResult × List (String × StackzillaAttributeDiff)),
    (acc.1 = StackzillaDiffResult.SAME ∨ acc.1 = StackzillaDiffResult.CONFLICT ∨
      acc.1 = StackzillaDiffResult.REBUILD_REQUIRED) →
    ((compareSrcLoop source destination entries acc).1 = StackzillaDiffResult.SAME ∨
      (compareSrcLoop source destination entries acc).1 = StackzillaDiffResult.CONFLICT ∨
      (compareSrcLoop source destination entries acc).1 =
        StackzillaDiffResult.REBUILD_REQUIRED)
  | [], _, h => h
  | (n, sa) :: rest, (result, results), h => by
      cases hfd : PyDict.find? destination.attributes n with
      | none =>
          simp only [compareSrcLoop, hfd]
          exact compareSrcLoop_valid source destination rest _ (escalate_valid result)
      | some da =>
          simp only [compareSrcLoop, hfd]
          by_cases hne : source.get_attribute_value n ≠ destination.get_attribute_value n
          · rw [if_pos hne]
            by_cases hmr : sa.modify_rebuild = true
            · rw [if_pos hmr]
              exact compareSrcLoop_valid source destination rest _ (by simp)
            · rw [if_neg hmr]
              by_cases hdy : sa.dynamic = true
              · rw [if_pos hdy]
                exact compareSrcLoop_valid source destination rest _ h
              · rw [if_neg hdy]
                exact compareSrcLoop_valid source destination rest _ (escalate_valid result)
          · rw [if_neg hne]
            exact compareSrcLoop_valid source destination rest _ h

/-- The destination scan only ever produces `SAME`, `CONFLICT` or
`REBUILD_REQUIRED` as the resource-level result. -/
theorem compareDestLoop_valid (source destination : ResInstance) :
    ∀ (entries : List (String × StackzillaAttribute))
      (acc : StackzillaDiffResult × List (String × StackzillaAttributeDiff)),
    (acc.1 = StackzillaDiffResult.SAME ∨ acc.1 = StackzillaDiffResult.CONFLICT ∨
      acc.1 = StackzillaDiffResult.REBUILD_REQUIRED) →
    ((compareDestLoop source destination entries acc).1 = StackzillaDiffResult.SAME ∨
      (compareDestLoop source destination entries acc).1 = StackzillaDiffResult.CONFLICT ∨
      (compareDestLoop source destination entries acc).1 =
        StackzillaDiffResult.REBUILD_REQUIRED)
  | [], _, h => h
  | (n, da) :: rest, (result, results), h => by
      cases hfd : PyDict.find? source.attributes n with
      | none =>
          simp only [compareDestLoop, hfd]
          exact compareDestLoop_valid source destination rest _ (escalate_valid result)
      | some sa =>
          simp only [compareDestLoop, hfd]
          by_cases hcont : PyDict.contains results n
          · rw [if_pos hcont]
            exact compareDestLoop_valid source destination rest _ h
          · rw [if_neg hcont]
            by_cases hne : source.get_attribute_value n ≠ destination.get_attribute_value n
            · rw [if_pos hne]
              by_cases hmr : da.modify_rebuild = true
              · rw [if_pos hmr]
                exact compareDestLoop_valid source destination rest _ (by simp)
              · rw [if_neg hmr]
                by_cases hdy : da.dynamic = true
                · rw [if_pos hdy]
                  exact compareDestLoop_valid source destination rest _ h
                · rw [if_neg hdy]
                  exact compareDestLoop_valid source destination rest _
                    (escalate_valid result)
            · rw [if_neg hne]
              exact compareDestLoop_valid source destination rest _ h

/-- `compare_attributes` never returns `NEW` or `DELETED` as the
resource-level result. -/
theorem compare_attributes_valid (source destination : ResInstance) :
    (StackzillaDiff.compare_attributes source destination).1 =
      StackzillaDiffResult.SAME ∨
    (StackzillaDiff.compare_attributes source destination).1 =
      StackzillaDiffResult.CONFLICT ∨
    (StackzillaDiff.compare_attributes source destination).1 =
      StackzillaDiffResult.REBUILD_REQUIRED := by
  unfold StackzillaDiff.compare_attributes
  exact compareDestLoop_valid source destination destination.attributes _
    (compareSrcLoop_valid source destination source.attributes _ (by simp))

/-- Pass 1 of `diff()` raises `VersionIncompatibility` — immediately, without
producing a result — whenever some source resource shares a (pruned,
loadable) destination path whose saved major version differs. -/
theorem diffPass1_mismatch (db : Database)
    (dest_resources : List (String × ResourceClass)) :
    ∀ (entries : List (String × ResourceClass)) (result : StackzillaDiffResult)
      (diffs : List (String × StackzillaResourceDiff)),
    (∀ k dc, PyDict.find? dest_resources k = some dc →
      ∃ r, dc.load_from_db db = Except.ok r) →
    (∃ k sc dc r, (k, sc) ∈ entries ∧ PyDict.find? dest_resources k = some dc ∧
      dc.load_from_db db = Except.ok r ∧ sc.version.major ≠ r.2.major) →
    ∃ msg, diffPass1 db dest_resources entries result diffs =
      Except.error (DiffErr.versionIncompatibility msg)
  | [], result, diffs, _, hmism => by
      obtain ⟨k, sc, dc, r, hmem, -⟩ := hmism
      simp at hmem
  | (k0, sc0) :: rest, result, diffs, hloads, hmism => by
      cases hfd : PyDict.find? dest_resources k0 with
      | none =>
          simp only [diffPass1, hfd]
          apply diffPass1_mismatch db dest_resources rest _ _ hloads
          obtain ⟨k, sc, dc, r, hmem, hfdk, hld, hne⟩ := hmism
          rcases List.mem_cons.mp hmem with heq | hmem2
          · obtain ⟨hk, -⟩ := Prod.mk.injEq .. ▸ heq
            rw [hk] at hfdk
            rw [hfd] at hfdk
            exact absurd hfdk (by simp)
          · exact ⟨k, sc, dc, r, hmem2, hfdk, hld, hne⟩
      | some dc0 =>
          obtain ⟨r0, hld0⟩ := hloads k0 dc0 hfd
          obtain ⟨inst0, ver0⟩ := r0
          by_cases hv : sc0.version.major = ver0.major
          · have hcv : StackzillaDiff.compare_versions sc0 ver0 = Option.none := by
              simp [StackzillaDiff.compare_versions, hv]
            have hrest : ∃ k sc dc r, (k, sc) ∈ rest ∧
                PyDict.find? dest_resources k = some dc ∧
                dc.load_from_db db = Except.ok r ∧ sc.version.major ≠ r.2.major := by
              obtain ⟨k, sc, dc, r, hmem, hfdk, hld, hne⟩ := hmism
              rcases List.mem_cons.mp hmem with heq | hmem2
              · exfalso
                obtain ⟨hk, hsc⟩ := Prod.mk.injEq .. ▸ heq
                rw [hk] at hfdk
                rw [hfd] at hfdk
                obtain rfl : dc = dc0 := (Option.some.inj hfdk).symm
                rw [hld0] at hld
                obtain rfl : r = (inst0, ver0) := (Except.ok.inj hld).symm
                rw [hsc] at hne
                exact hne hv
              · exact ⟨k, sc, dc, r, hmem2, hfdk, hld, hne⟩
            rcases hca : StackzillaDiff.compare_attributes sc0.newInstance inst0
              with ⟨cr, cd⟩
            have hvalid := compare_attributes_valid sc0.newInstance inst0
            rw [hca] at hvalid
            rcases hvalid with hcr | hcr | hcr <;>
              (rw [show cr = _ from hcr] at hca) <;>
              simp only [diffPass1, hfd, hld0, hcv, hca] <;>
              exact diffPass1_mismatch db dest_resources rest _ _ hloads hrest
          · refine ⟨pathDisplay sc0.path ++ " provider version mismatch: " ++
              toString sc0.version.major ++ " != " ++ toString ver0.major, ?_⟩
            have hcv : StackzillaDiff.compare_versions sc0 ver0 =
                some (pathDisplay sc0.path ++ " provider version mismatch: " ++
                  toString sc0.version.major ++ " != " ++ toString ver0.major) := by
              simp [StackzillaDiff.compare_versions, hv]
            simp only [diffPass1, hfd, hld0, hcv]

/-- C5.  When some resource present in both (rewritten) blueprints has a
declared major version differing from the destination's persisted major
version, `diff()` raises `VersionIncompatibility` (first conjunct) and the
queryable diff result is left exactly as before the call — no partial result
is produced or stored (second conjunct). -/
theorem claim_C5 (db : Database) (diskPre dbPre : String)
    (source destination : List (String × ResourceClass))
    (prev : Option StackzillaBlueprintDiff)
    (hnodup : (PyDict.keys (rewriteKeys dbPre destination)).Nodup)
    (hnoattr : ∀ kv ∈ rewriteKeys dbPre destination,
      kv.2.load_from_db db ≠ Except.error LoadErr.attributeNotFound)
    (hmism : ∃ k sc dc r, (k, sc) ∈ rewriteKeys diskPre source ∧
      PyDict.find? ((rewriteKeys dbPre destination).filter
        (fun kv => loadOk db kv.2)) k = some dc ∧
      dc.load_from_db db = Except.ok r ∧ sc.version.major ≠ r.2.major) :
    (∃ msg, (StackzillaDiff.diff db diskPre dbPre source destination prev).error =
      some (DiffErr.versionIncompatibility msg)) ∧
    (StackzillaDiff.diff db diskPre dbPre source destination prev).result = prev := by
  have hprune : pruneLoop db (PyDict.keys (rewriteKeys dbPre destination))
      (rewriteKeys dbPre destination) =
      ((rewriteKeys dbPre destination).filter (fun kv => loadOk db kv.2),
        Option.none) := by
    rw [pruneLoop_filter db _ _ hnodup hnoattr]
    congr 1
    apply List.filter_congr
    intro kv hkv
    have : kv.1 ∈ PyDict.keys (rewriteKeys dbPre destination) :=
      List.mem_map.mpr ⟨kv, hkv, rfl⟩
    simp [this]
  have hloads : ∀ k dc, PyDict.find? ((rewriteKeys dbPre destination).filter
      (fun kv => loadOk db kv.2)) k = some dc →
      ∃ r, dc.load_from_db db = Except.ok r := by
    intro k dc hfd
    have hmem := PyDict.find?_mem hfd
    have hok : loadOk db dc = true := (List.mem_filter.mp hmem).2
    cases hld : dc.load_from_db db with
    | ok r => exact ⟨r, rfl⟩
    | error e =>
        rw [loadOk, hld] at hok
        simp at hok
  obtain ⟨msg, hp1⟩ := diffPass1_mismatch db _ (rewriteKeys diskPre source)
    StackzillaDiffResult.SAME [] hloads hmism
  constructor
  · refine ⟨msg, ?_⟩
    simp only [StackzillaDiff.diff]
    rw [hprune]
    dsimp only
    rw [hp1]
  · simp only [StackzillaDiff.diff]
    rw [hprune]
    dsimp only
    rw [hp1]

/-- C5 (witness).  A concrete diff whose shared resource declares major
version 2 against a persisted major version 1, with a non-`none` prior
result: the call raises and the prior result is untouched. -/
theorem claim_C5_witness :
    (∃ msg, (StackzillaDiff.diff exRebuildDB "sz_disk_bp" "sz_db_bp"
      [("sz_disk_bp.m.R", exRebuildClsV2)] [("sz_db_bp.m.R", exRebuildCls)]
      (some ⟨[], StackzillaDiffResult.SAME⟩)).error =
        some (DiffErr.versionIncompatibility msg)) ∧
    (StackzillaDiff.diff exRebuildDB "sz_disk_bp" "sz_db_bp"
      [("sz_disk_bp.m.R", exRebuildClsV2)] [("sz_db_bp.m.R", exRebuildCls)]
      (some ⟨[], StackzillaDiffResult.SAME⟩)).result =
        some ⟨[], StackzillaDiffResult.SAME⟩ :=
  claim_C5 exRebuildDB "sz_disk_bp" "sz_db_bp"
    [("sz_disk_bp.m.R", exRebuildClsV2)] [("sz_db_bp.m.R", exRebuildCls)]
    (some ⟨[], StackzillaDiffResult.SAME⟩) (by decide) (by decide)
    ⟨"..m.R", exRebuildClsV2, exRebuildCls,
      (⟨"..m.R", [("a", exRebuildAttr)], [("a", Value.int 1)]⟩, exVer),
      by decide, by decide, by decide, by decide⟩


/-!  Lemmas for the `diff(X, X)` idempotence claim. -/

/-- A string with no occurrence of the pattern is left unchanged by
`replace`, whatever the fuel. -/
theorem pyReplaceAux_no_occur (pat rep : List Char) :
    ∀ (fuel : Nat) (s : List Char), strOccurs pat s = false →
    pyReplaceAux pat rep fuel s = s
  | 0, s, _ => rfl
  | Nat.succ fuel, [], _ => rfl
  | Nat.succ fuel, c :: cs, hocc => by
      simp only [strOccurs, Bool.or_eq_false_iff] at hocc
      simp only [pyReplaceAux]
      rw [if_neg (by simp [hocc.1])]
      rw [pyReplaceAux_no_occur pat rep fuel cs hocc.2]

/-- Replacing a non-empty leading pattern that does not reoccur in the
remainder substitutes it exactly once, at the front. -/
theorem pyReplace_pre_append (pre sub : String) (hne : pre.data ≠ [])
    (hocc : strOccurs pre.data sub.data = false) :
    pyReplace (pre ++ sub) pre "." = "." ++ sub := by
  obtain ⟨c, cs, hcs⟩ : ∃ c cs, pre.data = c :: cs := by
    cases hp : pre.data with
    | nil => exact absurd hp hne
    | cons c cs => exact ⟨c, cs, rfl⟩
  apply String.ext
  show pyReplaceAux pre.data ".".data (pre ++ sub).data.length (pre ++ sub).data =
    ("." ++ sub).data
  have hdata : (pre ++ sub).data = c :: (cs ++ sub.data) := by
    rw [String.data_append, hcs]
    rfl
  rw [hdata]
  rw [show (c :: (cs ++ sub.data)).length = Nat.succ (cs ++ sub.data).length from rfl]
  have hcond : pre.data ≠ [] ∧ pre.data.isPrefixOf (c :: (cs ++ sub.data)) = true := by
    refine ⟨hne, ?_⟩
    rw [hcs, ← List.cons_append]
    exact List.isPrefixOf_iff_prefix.mpr (List.prefix_append _ _)
  simp only [pyReplaceAux]
  rw [if_pos hcond]
  rw [show pre.data.length - 1 = cs.length from by rw [hcs]; rfl]
  rw [List.drop_left]
  rw [pyReplaceAux_no_occur pre.data ".".data (cs ++ sub.data).length sub.data hocc]
  rw [String.data_append]

/-- Appending a fixed string on the left is injective. -/
theorem string_append_injective (p : String) :
    Function.Injective (fun s => p ++ s) := by
  intro a b h
  apply String.ext
  have hd := congrArg String.data h
  rw [String.data_append, String.data_append] at hd
  exact List.append_cancel_left hd

/-- Distinct path suffixes give distinct normalized paths. -/
theorem mkPaths_nodup (X : List LogicalResource)
    (hsubs : (X.map LogicalResource.sub).Nodup) :
    (X.map LogicalResource.path).Nodup := by
  rw [show X.map LogicalResource.path =
    (X.map LogicalResource.sub).map (fun s => "." ++ s) from by rw [List.map_map]; rfl]
  exact hsubs.map (string_append_injective ".")

/-- A present key's lookup succeeds. -/
theorem PyDict.find_isSome_of_mem {γ : Type} {m : List (String × γ)} {k : String}
    (h : k ∈ PyDict.keys m) : (PyDict.find? m k).isSome = true := by
  cases hfd : PyDict.find? m k with
  | none => exact absurd h ((PyDict.find?_eq_none_iff m k).mp hfd)
  | some v => rfl

/-- Lookup over a key-tagged map: a present key finds its image, an absent key
finds nothing. -/
theorem PyDict.find_map_keyed {δ γ : Type} (f : String → γ) :
    ∀ (l : List (String × δ)) (n : String),
    PyDict.find? (l.map (fun p => (p.1, f p.1))) n =
      if n ∈ l.map Prod.fst then some (f n) else Option.none
  | [], n => by simp [PyDict.find?]
  | (k, v) :: rest, n => by
      by_cases hk : k = n
      · subst hk
        simp [PyDict.find?]
      · have hstep : PyDict.find? (((k, v) :: rest).map (fun p => (p.1, f p.1))) n =
            PyDict.find? (rest.map (fun p => (p.1, f p.1))) n := by
          simp [PyDict.find?, hk]
        rw [hstep, PyDict.find_map_keyed f rest n]
        by_cases hn : n ∈ rest.map Prod.fst
        · rw [if_pos hn, if_pos (show n ∈ List.map Prod.fst ((k, v) :: rest) from
            List.mem_cons_of_mem _ hn)]
        · rw [if_neg hn, if_neg (show n ∉ List.map Prod.fst ((k, v) :: rest) from
            by simp [Ne.symm hk, hn])]

/-- When every requested attribute has a stored value, the loading loop of
`load_from_db` returns the looked-up values in declaration order. -/
theorem loadValues_total (dbr : DBResource) (f : String → Value) :
    ∀ (attrs : List (String × StackzillaAttribute)),
    (∀ p ∈ attrs, PyDict.find? dbr.attributes p.1 = some (f p.1)) →
    loadValues dbr attrs = Except.ok (attrs.map (fun p => (p.1, f p.1)))
  | [], _ => rfl
  | (n, a) :: rest, hmem => by
      have hfd : PyDict.find? dbr.attributes n = some (f n) :=
        hmem (n, a) (List.mem_cons_self _ _)
      have hrec := loadValues_total dbr f rest
        (fun p hp => hmem p (List.mem_cons_of_mem _ hp))
      simp only [loadValues, hfd, hrec, List.map_cons]

/-- Loading any resource of the set from the set's own store succeeds,
yielding the saved version and an instance whose values are the class
instance's values, tagged per attribute. -/
theorem load_mkDB (X : List LogicalResource)
    (hsubs : (X.map LogicalResource.sub).Nodup) (r : LogicalResource) (hr : r ∈ X) :
    r.cls.load_from_db (mkDB X) =
      Except.ok
        (⟨r.path, r.attributes,
          r.attributes.map (fun p => (p.1, r.cls.newInstance.get_attribute_value p.1))⟩,
          r.version) := by
  have hnodup : (PyDict.keys (mkDB X).resources).Nodup := by
    have he : PyDict.keys (mkDB X).resources = X.map LogicalResource.path := by
      show (X.map _).map Prod.fst = X.map LogicalResource.path
      rw [List.map_map]
      rfl
    rw [he]
    exact mkPaths_nodup X hsubs
  have hfd : PyDict.find? (mkDB X).resources r.path =
      some ⟨r.attributes.map (fun p => (p.1, r.cls.newInstance.get_attribute_value p.1)),
        r.version⟩ :=
    PyDict.find?_eq_of_mem_nodup hnodup (List.mem_map.mpr ⟨r, hr, rfl⟩)
  have hload : loadValues
      ⟨r.attributes.map (fun p => (p.1, r.cls.newInstance.get_attribute_value p.1)),
        r.version⟩ r.attributes =
      Except.ok (r.attributes.map
        (fun p => (p.1, r.cls.newInstance.get_attribute_value p.1))) := by
    apply loadValues_total _ (fun n => r.cls.newInstance.get_attribute_value n)
    intro p hp
    show PyDict.find?
      (r.attributes.map (fun q => (q.1, r.cls.newInstance.get_attribute_value q.1))) p.1 =
      some (r.cls.newInstance.get_attribute_value p.1)
    rw [PyDict.find_map_keyed (fun n => r.cls.newInstance.get_attribute_value n)
      r.attributes p.1]
    rw [if_pos (List.mem_map.mpr ⟨p, hp, rfl⟩)]
  have hcp : r.cls.path = r.path := rfl
  have hca : r.cls.attributes = r.attributes := rfl
  simp only [ResourceClass.load_from_db, hcp, hca, hfd, hload]

/-- A fresh class instance compared against its own loaded store image is
`SAME` with no attribute diffs. -/
theorem compare_attributes_loaded (r : LogicalResource) :
    StackzillaDiff.compare_attributes r.cls.newInstance
      ⟨r.path, r.attributes,
        r.attributes.map (fun p => (p.1, r.cls.newInstance.get_attribute_value p.1))⟩ =
      (StackzillaDiffResult.SAME, []) := by
  have hval : ∀ n, n ∈ r.attributes.map Prod.fst →
      (⟨r.path, r.attributes,
        r.attributes.map (fun p => (p.1, r.cls.newInstance.get_attribute_value p.1))⟩ :
        ResInstance).get_attribute_value n = r.cls.newInstance.get_attribute_value n := by
    intro n hn
    have hfd : PyDict.find?
        (r.attributes.map (fun p => (p.1, r.cls.newInstance.get_attribute_value p.1))) n =
        some (r.cls.newInstance.get_attribute_value n) := by
      rw [PyDict.find_map_keyed (fun m => r.cls.newInstance.get_attribute_value m)
        r.attributes n]
      rw [if_pos hn]
    show (match PyDict.find?
        (r.attributes.map (fun p => (p.1, r.cls.newInstance.get_attribute_value p.1))) n with
      | some v => v
      | Option.none =>
          match PyDict.find? r.attributes n with
          | some a => a.default
          | Option.none => Value.none) = r.cls.newInstance.get_attribute_value n
    rw [hfd]
  have hboth : ∀ p : String × StackzillaAttribute, p ∈ r.attributes →
      (PyDict.find? r.attributes p.1).isSome = true ∧
      r.cls.newInstance.get_attribute_value p.1 =
        (⟨r.path, r.attributes,
          r.attributes.map (fun q => (q.1, r.cls.newInstance.get_attribute_value q.1))⟩ :
          ResInstance).get_attribute_value p.1 := by
    intro p hp
    have hn : p.1 ∈ r.attributes.map Prod.fst := List.mem_map.mpr ⟨p, hp, rfl⟩
    exact ⟨PyDict.find_isSome_of_mem hn, (hval p.1 hn).symm⟩
  show compareDestLoop r.cls.newInstance
    ⟨r.path, r.attributes,
      r.attributes.map (fun p => (p.1, r.cls.newInstance.get_attribute_value p.1))⟩
    r.attributes
    (compareSrcLoop r.cls.newInstance
      ⟨r.path, r.attributes,
        r.attributes.map (fun p => (p.1, r.cls.newInstance.get_attribute_value p.1))⟩
      r.attributes (StackzillaDiffResult.SAME, [])) =
    (StackzillaDiffResult.SAME, [])
  rw [compareSrcLoop_same r.cls.newInstance
    ⟨r.path, r.attributes,
      r.attributes.map (fun p => (p.1, r.cls.newInstance.get_attribute_value p.1))⟩
    r.attributes
    (fun p hp => ⟨(hboth p hp).1, Or.inl (hboth p hp).2⟩)]
  exact compareDestLoop_same r.cls.newInstance
    ⟨r.path, r.attributes,
      r.attributes.map (fun p => (p.1, r.cls.newInstance.get_attribute_value p.1))⟩
    r.attributes
    (fun q hq => ⟨(hboth q hq).1, Or.inl (hboth q hq).2⟩)

/-- Pass 1 of `diff()` on the self-diff inputs: every walked resource loads,
passes the version check and compares `SAME`, so the accumulated result stays
`SAME` and every walked path lands in the diff map with a `SAME`,
empty-attribute-diff record. -/
theorem diffPass1_selfSame (X : List LogicalResource)
    (hsubs : (X.map LogicalResource.sub).Nodup) :
    ∀ (Y : List LogicalResource) (diffs : List (String × StackzillaResourceDiff)),
    (∀ r ∈ Y, r ∈ X) →
    ∃ diffs2,
      diffPass1 (mkDB X) (X.map (fun r => (r.path, r.cls)))
        (Y.map (fun r => (r.path, r.cls))) StackzillaDiffResult.SAME diffs =
        Except.ok (StackzillaDiffResult.SAME, diffs2) ∧
      (∀ kv ∈ diffs2, kv ∈ diffs ∨
        ∃ r : LogicalResource, kv = (r.path,
          ⟨some r.cls, some r.cls, StackzillaDiffResult.SAME, []⟩)) ∧
      (∀ k, PyDict.contains diffs k = true → PyDict.contains diffs2 k = true) ∧
      (∀ r ∈ Y, PyDict.contains diffs2 r.path = true)
  | [], diffs, _ =>
      ⟨diffs, rfl, fun kv hkv => Or.inl hkv, fun _ h => h,
        fun r hr => absurd hr (by simp)⟩
  | r :: Ys, diffs, hsub => by
      have hrX : r ∈ X := hsub r (List.mem_cons_self _ _)
      have hfind : PyDict.find? (X.map (fun r => (r.path, r.cls))) r.path =
          some r.cls := by
        apply PyDict.find?_eq_of_mem_nodup
        · show ((X.map (fun r => (r.path, r.cls))).map Prod.fst).Nodup
          rw [show (X.map (fun r => (r.path, r.cls))).map Prod.fst =
            X.map LogicalResource.path from by rw [List.map_map]; rfl]
          exact mkPaths_nodup X hsubs
        · exact List.mem_map.mpr ⟨r, hrX, rfl⟩
      have hload := load_mkDB X hsubs r hrX
      have hver : StackzillaDiff.compare_versions r.cls r.version = Option.none := by
        simp [StackzillaDiff.compare_versions, LogicalResource.cls]
      have hcmp := compare_attributes_loaded r
      simp only [List.map_cons, diffPass1, hfind, hload, hver, hcmp]
      obtain ⟨diffs2, heq, hmem2, hpres, hcov⟩ :=
        diffPass1_selfSame X hsubs Ys
          (PyDict.insert diffs r.path
            ⟨some r.cls, some r.cls, StackzillaDiffResult.SAME, []⟩)
          (fun q hq => hsub q (List.mem_cons_of_mem _ hq))
      refine ⟨diffs2, heq, ?_, ?_, ?_⟩
      · intro kv hkv
        rcases hmem2 kv hkv with h1 | h1
        · rcases PyDict.mem_insert h1 with h2 | h2
          · exact Or.inr ⟨r, h2⟩
          · exact Or.inl h2
        · exact Or.inr h1
      · intro k hk
        exact hpres k (PyDict.contains_insert_of_contains _ _ _ _ hk)
      · intro q hq
        rcases List.mem_cons.mp hq with h1 | h1
        · subst h1
          exact hpres q.path (PyDict.contains_insert_self _ _ _)
        · exact hcov q h1

/-- Pass 2 of `diff()` leaves the result and the diff map unchanged when every
destination path was already handled by pass 1. -/
theorem diffPass2_all_contained :
    ∀ (entries : List (String × ResourceClass)) (result : StackzillaDiffResult)
      (diffs : List (String × StackzillaResourceDiff)),
    (∀ kv ∈ entries, PyDict.contains diffs kv.1 = true) →
    diffPass2 entries result diffs = (result, diffs)
  | [], _, _, _ => rfl
  | (n, c) :: rest, result, diffs, hall => by
      have hc : PyDict.contains diffs n = true := hall (n, c) (List.mem_cons_self _ _)
      simp only [diffPass2, hc, if_true]
      exact diffPass2_all_contained rest result diffs
        (fun kv hkv => hall kv (List.mem_cons_of_mem _ hkv))

/-- The in-place key rewrite sends the prefixed blueprint of a resource set to
its normalized-path form when the prefix is non-empty, absent from every path
suffix, the suffixes are distinct, and no normalized path collides with a
still-prefixed key. -/
theorem rewrite_mkBlueprint (p : String) (X : List LogicalResource)
    (hp : p.data ≠ [])
    (hocc : ∀ r ∈ X, strOccurs p.data r.sub.data = false)
    (hsubs : (X.map LogicalResource.sub).Nodup)
    (hfresh : ∀ r ∈ X, ∀ r2 ∈ X, r.path ≠ p ++ r2.sub) :
    rewriteKeys p (X.map (fun r => (p ++ r.sub, r.cls))) =
      X.map (fun r => (r.path, r.cls)) := by
  have he : (X.map (fun r => (p ++ r.sub, r.cls))).map Prod.fst =
      X.map (fun r => p ++ r.sub) := by
    rw [List.map_map]
    rfl
  have h1 : ((X.map (fun r => (p ++ r.sub, r.cls))).map Prod.fst).Nodup := by
    rw [he, show X.map (fun r => p ++ r.sub) =
      (X.map LogicalResource.sub).map (fun s => p ++ s) from by rw [List.map_map]; rfl]
    exact hsubs.map (string_append_injective p)
  have h3 : ∀ k ∈ (X.map (fun r => (p ++ r.sub, r.cls))).map Prod.fst,
      pyReplace k p "." ∉ (X.map (fun r => (p ++ r.sub, r.cls))).map Prod.fst := by
    rw [he]
    intro k hk
    obtain ⟨r, hr, hkeq⟩ := List.mem_map.mp hk
    subst hkeq
    rw [pyReplace_pre_append p r.sub hp (hocc r hr)]
    intro hc
    obtain ⟨r2, hr2, hkeq2⟩ := List.mem_map.mp hc
    exact hfresh r hr r2 hr2 hkeq2.symm
  have h4 : ((X.map (fun r => (p ++ r.sub, r.cls))).map
      (fun kv => pyReplace kv.1 p ".")).Nodup := by
    rw [show (X.map (fun r => (p ++ r.sub, r.cls))).map (fun kv => pyReplace kv.1 p ".") =
        X.map (fun r => pyReplace (p ++ r.sub) p ".") from by rw [List.map_map]; rfl]
    rw [List.map_congr_left (fun r hr => pyReplace_pre_append p r.sub hp (hocc r hr))]
    rw [show X.map (fun r => "." ++ r.sub) =
      (X.map LogicalResource.sub).map (fun s => "." ++ s) from by rw [List.map_map]; rfl]
    exact hsubs.map (string_append_injective ".")
  rw [rewriteKeys_eq_map p (X.map (fun r => (p ++ r.sub, r.cls))) h1 h3 h4]
  rw [List.map_map]
  apply List.map_congr_left
  intro r hr
  show (pyReplace (p ++ r.sub) p ".", r.cls) = (r.path, r.cls)
  rw [pyReplace_pre_append p r.sub hp (hocc r hr)]
  rfl

/-- C9.  For a valid resource set `X` — distinct path suffixes, namespace
prefixes that are non-empty, occur in no suffix and whose removal creates no
key collision, every destination resource persisted in the store with exactly
the source's attribute values — `diff(X, X)` succeeds and produces a
blueprint-level result of `SAME`, with every per-resource diff `SAME` and
zero attribute diffs. -/
theorem claim_C9 (diskPre dbPre : String) (X : List LogicalResource)
    (hdisk : diskPre.data ≠ []) (hdb : dbPre.data ≠ [])
    (hoccd : ∀ r ∈ X, strOccurs diskPre.data r.sub.data = false)
    (hoccb : ∀ r ∈ X, strOccurs dbPre.data r.sub.data = false)
    (hsubs : (X.map LogicalResource.sub).Nodup)
    (hfreshd : ∀ r ∈ X, ∀ r2 ∈ X, r.path ≠ diskPre ++ r2.sub)
    (hfreshb : ∀ r ∈ X, ∀ r2 ∈ X, r.path ≠ dbPre ++ r2.sub)
    (prev : Option StackzillaBlueprintDiff) :
    (StackzillaDiff.diff (mkDB X) diskPre dbPre (mkSrcBlueprint diskPre X)
        (mkDestBlueprint dbPre X) prev).error = Option.none ∧
    ∃ bd, (StackzillaDiff.diff (mkDB X) diskPre dbPre (mkSrcBlueprint diskPre X)
        (mkDestBlueprint dbPre X) prev).result = some bd ∧
      bd.result = StackzillaDiffResult.SAME ∧
      ∀ kv ∈ bd.resource_diffs, kv.2.result = StackzillaDiffResult.SAME ∧
        kv.2.attribute_diffs = [] := by
  have hsrc : rewriteKeys diskPre (mkSrcBlueprint diskPre X) =
      X.map (fun r => (r.path, r.cls)) :=
    rewrite_mkBlueprint diskPre X hdisk hoccd hsubs hfreshd
  have hdest : rewriteKeys dbPre (mkDestBlueprint dbPre X) =
      X.map (fun r => (r.path, r.cls)) :=
    rewrite_mkBlueprint dbPre X hdb hoccb hsubs hfreshb
  have hnodupL : ((X.map (fun r => (r.path, r.cls))).map Prod.fst).Nodup := by
    rw [show (X.map (fun r => (r.path, r.cls))).map Prod.fst =
      X.map LogicalResource.path from by rw [List.map_map]; rfl]
    exact mkPaths_nodup X hsubs
  have hloadsome : ∀ kv ∈ X.map (fun r => (r.path, r.cls)),
      ∃ res, kv.2.load_from_db (mkDB X) = Except.ok res := by
    intro kv hkv
    obtain ⟨r, hr, hkeq⟩ := List.mem_map.mp hkv
    subst hkeq
    exact ⟨_, load_mkDB X hsubs r hr⟩
  have hprune : pruneLoop (mkDB X) (PyDict.keys (X.map (fun r => (r.path, r.cls))))
      (X.map (fun r => (r.path, r.cls))) =
      (X.map (fun r => (r.path, r.cls)), Option.none) := by
    rw [pruneLoop_filter (mkDB X) _ _ hnodupL (fun kv hkv => by
      obtain ⟨res, hres⟩ := hloadsome kv hkv
      rw [hres]
      simp)]
    congr 1
    apply List.filter_eq_self.mpr
    intro kv hkv
    obtain ⟨res, hres⟩ := hloadsome kv hkv
    simp [loadOk, hres]
  obtain ⟨diffs2, hp1, hmem2, hpres, hcov⟩ :=
    diffPass1_selfSame X hsubs X [] (fun r hr => hr)
  have hp2 : diffPass2 (X.map (fun r => (r.path, r.cls))) StackzillaDiffResult.SAME
      diffs2 = (StackzillaDiffResult.SAME, diffs2) := by
    apply diffPass2_all_contained
    intro kv hkv
    obtain ⟨r, hr, hkeq⟩ := List.mem_map.mp hkv
    subst hkeq
    exact hcov r hr
  constructor
  · simp only [StackzillaDiff.diff, hsrc, hdest, hprune, hp1, hp2]
  · refine ⟨⟨diffs2, StackzillaDiffResult.SAME⟩, ?_, rfl, ?_⟩
    · simp only [StackzillaDiff.diff, hsrc, hdest, hprune, hp1, hp2]
    · intro kv hkv
      rcases hmem2 kv hkv with h1 | ⟨r2, h2⟩
      · exact absurd h1 (by simp)
      · subst h2
        exact ⟨rfl, rfl⟩

/-- C9 (witness).  The two-resource set `exSetX` under the standard disk and
database namespace prefixes: the self-diff succeeds, the blueprint-level
result is `SAME`, and every per-resource diff is `SAME` with no attribute
diffs. -/
theorem claim_C9_witness :
    (StackzillaDiff.diff (mkDB exSetX) "sz_disk_bp" "sz_db_bp"
        (mkSrcBlueprint "sz_disk_bp" exSetX) (mkDestBlueprint "sz_db_bp" exSetX)
        Option.none).error = Option.none ∧
    ∃ bd, (StackzillaDiff.diff (mkDB exSetX) "sz_disk_bp" "sz_db_bp"
        (mkSrcBlueprint "sz_disk_bp" exSetX) (mkDestBlueprint "sz_db_bp" exSetX)
        Option.none).result = some bd ∧
      bd.result = StackzillaDiffResult.SAME ∧
      ∀ kv ∈ bd.resource_diffs, kv.2.result = StackzillaDiffResult.SAME ∧
        kv.2.attribute_diffs = [] :=
  claim_C9 "sz_disk_bp" "sz_db_bp" exSetX (by decide) (by decide) (by decide)
    (by decide) (by decide) (by decide) (by decide) Option.none

end Stackzilla
